import Mathlib

/-! go-metrics-prometheus: the translation core of the exporter.

A shallow embedding of `exporter.go`: key sanitisation, gauge-name and
cache-key composition, value coercion, and the lazily registering
gauge cache driven by `ExportOnce`.

Go strings are byte sequences; they are modelled as lists of bytes.
-/

namespace Promex

/-! ## Strings -/

/-- One byte of a Go string. -/
abbrev Byte := Fin 256

/-- A Go `string`: an immutable sequence of bytes. -/
abbrev GoString := List Byte

/-- The bytes of a string literal (Go source text is UTF-8). -/
def utf8 (s : String) : GoString :=
  (s.data.flatMap String.utf8EncodeChar).map (fun b => b.val)

/-- `fmt.Sprintf("%s_%s", a, b)`. -/
def sprintf2 (a b : GoString) : GoString :=
  a ++ [95] ++ b

/-- `fmt.Sprintf("%s_%s_%s", a, b, c)`. -/
def sprintf3 (a b c : GoString) : GoString :=
  a ++ [95] ++ b ++ [95] ++ c

/-- `strings.TrimRight(s, cutset)` for a one-byte ASCII cutset `c`: the
standard library drops bytes from the end of `s` while the last byte is `c`. -/
def TrimRight (s : GoString) (c : Byte) : GoString :=
  (s.reverse.dropWhile (fun b => b == c)).reverse

/-! ## ReplaceUnsafeKeyCharacters -/

/-- The `valid` flag of the loop body: `char` is in `A-Z`, `a-z` or `0-9`. -/
def valid (char : Byte) : Bool :=
  (char ≥ 65 && char ≤ 90) ||   -- 'A' .. 'Z'
  (char ≥ 97 && char ≤ 122) ||  -- 'a' .. 'z'
  (char ≥ 48 && char ≤ 57)      -- '0' .. '9'

/-- One iteration of the loop `for i := 0; i < len(bs); i++` of
`ReplaceUnsafeKeyCharacters`, acting on the byte slice `bs` in place. -/
def replaceStep (bs : List Byte) (i : Nat) : List Byte :=
  let char := bs.getD i 0
  if char = 37 then          -- '%'
    bs.set i 112             -- 'p'
  else if !valid char then
    bs.set i 95              -- '_'
  else
    bs

/-- `ReplaceUnsafeKeyCharacters(key)`: the empty key becomes `"unnamed"`;
otherwise the bytes of the key are rewritten in place, index by index. -/
def ReplaceUnsafeKeyCharacters (key : GoString) : GoString :=
  if key = [] then utf8 "unnamed"
  else (List.range key.length).foldl replaceStep key

/-! ## Name and key composition -/

/-- `PrometheusMetricName(metric, value)`. -/
def PrometheusMetricName (metric value : GoString) : GoString :=
  let base := sprintf2 metric value
  let safe := ReplaceUnsafeKeyCharacters base
  let clean := TrimRight safe 95
  clean

/-- `PrometheusMetricKey(namespace, subsystem, metric, valueName)`. -/
def PrometheusMetricKey (namespace_ subsystem metric valueName : GoString) : GoString :=
  let clean := sprintf3 namespace_ subsystem (PrometheusMetricName metric valueName)
  clean

/-! ## Byte-wise reference for the sanitiser (from the specification) -/

/-- The per-byte substitution of the specification: `'%'` becomes `'p'`,
a byte in `A-Z`, `a-z`, `0-9` is kept, every other byte becomes `'_'`. -/
def substituteByte (b : Byte) : Byte :=
  if b = 37 then 112
  else if (65 ≤ b ∧ b ≤ 90) ∨ (97 ≤ b ∧ b ≤ 122) ∨ (48 ≤ b ∧ b ≤ 57) then b
  else 95

/-- The specification's sanitiser: `"unnamed"` for the empty string, the
per-byte substitution otherwise. -/
def sanitizeReference (s : GoString) : GoString :=
  if s = [] then utf8 "unnamed" else s.map substituteByte

/-- The specification's "strip any trailing underscore": the string without
its longest suffix of `'_'` bytes. -/
def stripTrailingUnderscores : GoString → GoString
  | [] => []
  | b :: t =>
    match stripTrailingUnderscores t with
    | [] => if b = 95 then [] else [b]
    | c :: r => b :: c :: r

/-- A byte is an ASCII letter, an ASCII digit or `'_'`. -/
def isSafeByte (b : Byte) : Prop :=
  (65 ≤ b ∧ b ≤ 90) ∨ (97 ≤ b ∧ b ≤ 122) ∨ (48 ≤ b ∧ b ≤ 57) ∨ b = 95

instance (b : Byte) : Decidable (isSafeByte b) := by
  unfold isSafeByte; infer_instance


/-! ## Values -/

/-- A Go `float64`, by its IEEE-754 binary64 bit pattern. -/
structure Float64 where
  bits : Nat
deriving DecidableEq, Repr

/-- The constant `0` as a `float64`. -/
def Float64.zero : Float64 := ⟨0⟩

/-- The constant `1` as a `float64`: exponent field 1023, fraction 0. -/
def Float64.one : Float64 := ⟨1023 * 2 ^ 52⟩

/-- The conversion `float64(v)` of an `int64`: the nearest binary64 value,
ties to even. -/
def Float64.ofInt64 (v : Int) : Float64 :=
  if v = 0 then ⟨0⟩
  else
    let sign := if v < 0 then 2 ^ 63 else 0
    let m := v.natAbs
    let e := (List.range 64).foldl (fun acc k => if 2 ^ k ≤ m then k else acc) 0
    if e ≤ 52 then
      ⟨sign + (e + 1023) * 2 ^ 52 + (m * 2 ^ (52 - e) - 2 ^ 52)⟩
    else
      let sh := e - 52
      let q := m / 2 ^ sh
      let r := m % 2 ^ sh
      let half := 2 ^ (sh - 1)
      let q1 := if r > half ∨ (r = half ∧ q % 2 = 1) then q + 1 else q
      ⟨sign + (e + 1023) * 2 ^ 52 + (q1 - 2 ^ 52)⟩

/-- The dynamic type of an `interface{}` value of a snapshot, as far as the
type switch of `AsFloat64` tells values apart. -/
inductive Value where
  | float64 (v : Float64)
  | int64 (v : Int)
  | string (v : GoString)
  | other
deriving DecidableEq, Repr

/-- `AsFloat64(value)`. -/
def AsFloat64 (value : Value) : Float64 :=
  match value with
  | .float64 v => v
  | .int64 v => Float64.ofInt64 v
  | .string v => if v.length > 0 then Float64.one else Float64.zero
  | _ => Float64.zero

/-! ## Gauges, the target registry and the exporter -/

/-- The fields of `prometheus.GaugeOpts` that the exporter fills in. -/
structure GaugeOpts where
  Namespace : GoString
  Subsystem : GoString
  Name : GoString
deriving DecidableEq, Repr

/-- A gauge object made by `prometheus.NewGauge`: its options and the value
last stored by `Set` (a new gauge holds 0). -/
structure Gauge where
  opts : GaugeOpts
  value : Float64
deriving DecidableEq, Repr

/-- A `prometheus.Gauge` interface value: the identity of a gauge object,
here its index in the list of all gauge objects created so far. -/
abbrev Handle := Nat

/-- The exporter together with the objects it refers to: the fields
`namespace`, `subsystem` and `gauges` of `Exporter`, every gauge object
created so far, and the gauges registered with `targetRegistry`. -/
structure State where
  namespace_ : GoString
  subsystem : GoString
  gauges : List (GoString × Handle)
  heap : List Gauge
  registered : List Handle
deriving DecidableEq, Repr

/-- How a call ends: normally, with its result, or in a panic, with the
state at the panic. -/
inductive Outcome (α : Type) where
  | ok (a : α)
  | panicked (s : State)
deriving DecidableEq, Repr

/-- The decision of the target `prometheus.Registerer`: given the options of
the gauges registered so far and those of a new gauge, whether `Register`
succeeds (`MustRegister` panics when it does not). -/
abbrev Registerer := List GaugeOpts → GaugeOpts → Bool

/-- The options of the gauges registered with the target so far. -/
def registeredOpts (s : State) : List GaugeOpts :=
  s.registered.filterMap (fun h => (s.heap[h]?).map (fun g => g.opts))

/-- The map assignment `m[key] = gauge`. -/
def mapStore (m : List (GoString × Handle)) (key : GoString) (gauge : Handle) :
    List (GoString × Handle) :=
  (key, gauge) :: m.filter (fun p => p.1 != key)

/-- The method `Set(v)` of the gauge behind handle `gauge`. -/
def gaugeSet (s : State) (gauge : Handle) (v : Float64) : State :=
  match s.heap[gauge]? with
  | some g => { s with heap := s.heap.set gauge { g with value := v } }
  | none => s

/-- `NewExporter(namespace, subsystem, srcRegistry, targetRegistry,
flushInterval)`, given the gauge objects that exist and those the target
has registered at that moment. -/
def NewExporter (namespace_ subsystem : GoString) (heap : List Gauge)
    (registered : List Handle) : State :=
  { namespace_ := ReplaceUnsafeKeyCharacters namespace_
    subsystem := ReplaceUnsafeKeyCharacters subsystem
    gauges := []
    heap := heap
    registered := registered }

/-- `e.getOrRegisterPrometheusGauge(metricName, valueName)`: the returned
gauge and the state after the call, or, when `MustRegister` panics, the state
at the panic. -/
def getOrRegisterPrometheusGauge (target : Registerer) (s : State)
    (metricName valueName : GoString) : Outcome (Handle × State) :=
  let name := PrometheusMetricName metricName valueName
  let key := PrometheusMetricKey s.namespace_ s.subsystem name valueName
  match s.gauges.lookup key with
  | some gauge => .ok (gauge, s)
  | none =>
    let opts : GaugeOpts :=
      { Namespace := s.namespace_, Subsystem := s.subsystem, Name := name }
    let gauge := s.heap.length
    let s1 := { s with heap := s.heap ++ [{ opts := opts, value := Float64.zero }] }
    if target (registeredOpts s) opts then
      let s2 := { s1 with registered := s1.registered ++ [gauge] }
      .ok (gauge, { s2 with gauges := mapStore s2.gauges key gauge })
    else
      .panicked s1

/-- The inner loop of `ExportOnce` over the sub-values of one metric, in the
order `values` lists them. -/
def exportValues (target : Registerer) (metricName : GoString) :
    State → List (GoString × Value) → Outcome State
  | s, [] => .ok s
  | s, (valueName, value) :: rest =>
    match getOrRegisterPrometheusGauge target s metricName valueName with
    | .panicked s1 => .panicked s1
    | .ok (gauge, s1) =>
      exportValues target metricName (gaugeSet s1 gauge (AsFloat64 value)) rest

/-- One iteration order of the map returned by `srcRegistry.GetAll()`: the
metrics in the order the outer `range` visits them, each with its sub-values
in the order the inner `range` visits them. -/
abbrev Snapshot := List (GoString × List (GoString × Value))

/-- `e.ExportOnce()`, for the snapshot and the iteration order `snap`. -/
def ExportOnce (target : Registerer) : State → Snapshot → Outcome State
  | s, [] => .ok s
  | s, (metricName, values) :: rest =>
    match exportValues target metricName s values with
    | .panicked s1 => .panicked s1
    | .ok s1 => ExportOnce target s1 rest

/-- A target that accepts a gauge exactly when no gauge with the same
namespace, subsystem and name is registered yet. -/
def freshNames : Registerer :=
  fun regs opts => !regs.contains opts

/-- The (metric, sub-value, raw value) triples of a snapshot, in iteration
order. -/
def triples (snap : Snapshot) : List (GoString × GoString × Value) :=
  snap.flatMap (fun mv => mv.2.map (fun p => (mv.1, p.1, p.2)))

/-- The cache key that `getOrRegisterPrometheusGauge` computes for a pair
(source lines 53 and 54: the composed name is passed on as the metric). -/
def cacheKey (s : State) (metricName valueName : GoString) : GoString :=
  PrometheusMetricKey s.namespace_ s.subsystem
    (PrometheusMetricName metricName valueName) valueName

/-- The body of the loops of `ExportOnce` for one triple. -/
def exportTriple (target : Registerer) (s : State) (t : GoString × GoString × Value) :
    Outcome State :=
  match getOrRegisterPrometheusGauge target s t.1 t.2.1 with
  | .panicked s1 => .panicked s1
  | .ok (gauge, s1) => .ok (gaugeSet s1 gauge (AsFloat64 t.2.2))

/-- The loops of `ExportOnce` as one loop over the triples. -/
def exportTriples (target : Registerer) : State → List (GoString × GoString × Value) →
    Outcome State
  | s, [] => .ok s
  | s, t :: rest =>
    match exportTriple target s t with
    | .panicked s1 => .panicked s1
    | .ok s1 => exportTriples target s1 rest

/-- Every gauge handle held by the cache refers to a gauge object, and no
gauge object is held under two cache entries. -/
def WellFormed (s : State) : Prop :=
  (s.gauges.map Prod.snd).Nodup ∧ ∀ p ∈ s.gauges, p.2 < s.heap.length

/-- The gauges that the lookups for the triples `l` return from the cache of
`s`. -/
def touched (s : State) (l : List (GoString × GoString × Value)) : List Handle :=
  l.filterMap (fun t => s.gauges.lookup (cacheKey s t.1 t.2.1))

/-- State `u` is state `s` up to the values of the gauges in `T`. -/
def AgreeOutside (T : List Handle) (u s : State) : Prop :=
  u.namespace_ = s.namespace_ ∧ u.subsystem = s.subsystem ∧ u.gauges = s.gauges ∧
  u.registered = s.registered ∧
  (∀ i : Nat, (u.heap[i]?).map Gauge.opts = (s.heap[i]?).map Gauge.opts) ∧
  ∀ i : Nat, i ∉ T → u.heap[i]? = s.heap[i]?

/-! ## A concrete snapshot -/

/-- A snapshot with one metric "mymeter" of two sub-values, "count" visited
first. -/
def meterSnapshot : Snapshot :=
  [(utf8 "mymeter", [(utf8 "count", Value.int64 1), (utf8 "1m.rate", Value.float64 Float64.zero)])]

/-- The same snapshot with "1m.rate" visited first. -/
def meterSwapped : Snapshot :=
  [(utf8 "mymeter", [(utf8 "1m.rate", Value.float64 Float64.zero), (utf8 "count", Value.int64 1)])]

/-- The state of a fresh exporter for "ns" and "subsys" after `ExportOnce` on
`meterSnapshot`. -/
def meterExported : State :=
  { namespace_ := utf8 "ns"
    subsystem := utf8 "subsys"
    gauges := [(utf8 "ns_subsys_mymeter_1m_rate_1m_rate", 1),
               (utf8 "ns_subsys_mymeter_count_count", 0)]
    heap := [⟨⟨utf8 "ns", utf8 "subsys", utf8 "mymeter_count"⟩, Float64.one⟩,
             ⟨⟨utf8 "ns", utf8 "subsys", utf8 "mymeter_1m_rate"⟩, Float64.zero⟩]
    registered := [0, 1] }

/-! ## Reference predicates and functions (from the specification) -/

/-- A byte is an ASCII letter or an ASCII digit. -/
def isAlnumByte (b : Byte) : Prop :=
  (65 ≤ b ∧ b ≤ 90) ∨ (97 ≤ b ∧ b ≤ 122) ∨ (48 ≤ b ∧ b ≤ 57)

instance (b : Byte) : Decidable (isAlnumByte b) := by
  unfold isAlnumByte; infer_instance

/-- A byte that the sanitiser does not turn into an underscore: an ASCII
letter, an ASCII digit or the percent sign. -/
def isKeptByte (b : Byte) : Prop :=
  isAlnumByte b ∨ b = 37

instance (b : Byte) : Decidable (isKeptByte b) := by
  unfold isKeptByte; infer_instance

/-- The value coercion of the specification on the closed union of float,
integer, text and other: a float is returned unchanged, an integer is
converted, a text gives 1 when non-empty and 0 when empty, anything else
gives 0. -/
def toFloatReference : Value → Float64
  | .float64 f => f
  | .int64 i => Float64.ofInt64 i
  | .string t => if t = [] then Float64.zero else Float64.one
  | .other => Float64.zero

/-! ## States after a call -/

/-- The state in which a call of `getOrRegisterPrometheusGauge` leaves the
exporter, whether it returned or panicked. -/
def afterCall : Outcome (Handle × State) → State
  | .ok (_, s) => s
  | .panicked s => s

/-- The state in which a call of `ExportOnce` leaves the exporter, whether it
returned or panicked. -/
def endState : Outcome State → State
  | .ok s => s
  | .panicked s => s

/-- The options of the gauge that `getOrRegisterPrometheusGauge` creates for a
pair on a cache miss. -/
def newGaugeOpts (s : State) (metricName valueName : GoString) : GaugeOpts :=
  { Namespace := s.namespace_, Subsystem := s.subsystem,
    Name := PrometheusMetricName metricName valueName }

/-- The states an exporter can be in: the state it starts from and every
state in which a call of `ExportOnce`, returning or panicking, leaves it. -/
inductive Reachable (target : Registerer) (s0 : State) : State → Prop where
  | start : Reachable target s0 s0
  | call (s : State) (snap : Snapshot) :
      Reachable target s0 s → Reachable target s0 (endState (ExportOnce target s snap))

/-- What `NewExporter` establishes for the namespace `ns` and the subsystem
`sub`, both already sanitised, given the gauges `registered` that the target
held before: the exporter keeps the two, every gauge registered since carries
them, and every cache key starts with them. -/
def Prefixed (ns sub : GoString) (registered : List Handle) (s : State) : Prop :=
  s.namespace_ = ns ∧ s.subsystem = sub ∧
  (∃ new, s.registered = registered ++ new ∧
    ∀ h ∈ new, ∃ o, (s.heap[h]?).map Gauge.opts = some o ∧ o.Namespace = ns ∧
      o.Subsystem = sub) ∧
  ∀ p ∈ s.gauges, ∃ rest, p.1 = ns ++ utf8 "_" ++ sub ++ utf8 "_" ++ rest

/-- The state of an exporter made with empty namespace and subsystem after
`ExportOnce` on the snapshot with the one pair ("mycounter", "count") of raw
value 1. -/
def unnamedExported : State :=
  { namespace_ := utf8 "unnamed"
    subsystem := utf8 "unnamed"
    gauges := [(utf8 "unnamed_unnamed_mycounter_count_count", 0)]
    heap := [⟨⟨utf8 "unnamed", utf8 "unnamed", utf8 "mycounter_count"⟩, Float64.one⟩]
    registered := [0] }

/-- The options of the gauge that serves a pair after a lookup from state `s`:
those of the cached gauge on a hit, those of the new gauge on a miss. -/
def gaugeOptsFor (s : State) (metricName valueName : GoString) : Option GaugeOpts :=
  match s.gauges.lookup (cacheKey s metricName valueName) with
  | some h => (s.heap[h]?).map Gauge.opts
  | none => some (newGaugeOpts s metricName valueName)

/-- A target as the specification describes the registration surface: it
rejects exactly the descriptors that are invalid, as `validDesc` tells, or
already registered. -/
def registryTarget (validDesc : GaugeOpts → Bool) : Registerer :=
  fun regs opts => validDesc opts && !regs.contains opts

/-- The triples `l` can all be served from state `s` by a `registryTarget`:
every triple that misses the cache has a valid, not yet registered descriptor,
and no two of them have the same descriptor. -/
def Admissible (validDesc : GaugeOpts → Bool) (s : State)
    (l : List (GoString × GoString × Value)) : Prop :=
  (∀ t ∈ l, s.gauges.lookup (cacheKey s t.1 t.2.1) = none →
    validDesc (newGaugeOpts s t.1 t.2.1) = true ∧
      newGaugeOpts s t.1 t.2.1 ∉ registeredOpts s) ∧
  ((l.filter (fun t => (s.gauges.lookup (cacheKey s t.1 t.2.1)).isNone)).map
    (fun t => newGaugeOpts s t.1 t.2.1)).Nodup

/-- The state of a fresh exporter for "ns" and "subsys" after `ExportOnce` on
`meterSwapped`: the two gauges were created in the other order. -/
def meterExportedSwapped : State :=
  { namespace_ := utf8 "ns"
    subsystem := utf8 "subsys"
    gauges := [(utf8 "ns_subsys_mymeter_count_count", 1),
               (utf8 "ns_subsys_mymeter_1m_rate_1m_rate", 0)]
    heap := [⟨⟨utf8 "ns", utf8 "subsys", utf8 "mymeter_1m_rate"⟩, Float64.zero⟩,
             ⟨⟨utf8 "ns", utf8 "subsys", utf8 "mymeter_count"⟩, Float64.one⟩]
    registered := [0, 1] }

set_option maxRecDepth 100000

/-! ## The sanitiser -/

theorem substituteByte_idem : ∀ b : Byte, substituteByte (substituteByte b) = substituteByte b := by
  decide

theorem substituteByte_safe : ∀ b : Byte, isSafeByte (substituteByte b) := by
  decide

theorem valid_iff (b : Byte) :
    valid b = true ↔ ((65 ≤ b ∧ b ≤ 90) ∨ (97 ≤ b ∧ b ≤ 122) ∨ (48 ≤ b ∧ b ≤ 57)) := by
  simp [valid, or_assoc]

theorem set_getD_self (bs : List Byte) (i : Nat) (d : Byte) : bs.set i (bs.getD i d) = bs := by
  induction bs generalizing i with
  | nil => simp
  | cons a t ih =>
    cases i with
    | zero => simp
    | succ j => simpa using ih j

theorem replaceStep_eq (bs : List Byte) (i : Nat) :
    replaceStep bs i = bs.set i (substituteByte (bs.getD i 0)) := by
  have hself := set_getD_self bs i 0
  unfold replaceStep substituteByte
  generalize bs.getD i 0 = c at hself ⊢
  by_cases h1 : c = 37
  · simp [h1]
  · by_cases h2 : valid c = true
    · have h3 := (valid_iff _).1 h2
      simp only [h1, h2, if_false, if_pos h3, hself]
      simp
    · have h3 := mt (valid_iff _).2 h2
      simp [h1, h2, if_neg h3]

theorem getD_mid (A B : List Byte) (x d : Byte) : (A ++ x :: B).getD A.length d = x := by
  induction A with
  | nil => rfl
  | cons a t ih => simpa using ih

theorem set_mid (A B : List Byte) (x y : Byte) :
    (A ++ x :: B).set A.length y = A ++ y :: B := by
  induction A with
  | nil => rfl
  | cons a t ih => simp

theorem replaceStep_mid (A B : List Byte) (x : Byte) (k : Nat) (hk : A.length = k) :
    replaceStep (A ++ x :: B) k = A ++ substituteByte x :: B := by
  subst hk
  rw [replaceStep_eq, getD_mid, set_mid]

/-- After `n` iterations the first `n` bytes are substituted and the rest is
untouched. -/
theorem foldl_replaceStep (key : List Byte) (n : Nat) (hn : n ≤ key.length) :
    (List.range n).foldl replaceStep key = (key.take n).map substituteByte ++ key.drop n := by
  induction n with
  | zero => simp
  | succ k ih =>
    have hk : k < key.length := hn
    rw [List.range_succ, List.foldl_append, ih (Nat.le_of_lt hk)]
    simp only [List.foldl_cons, List.foldl_nil]
    have hlen : ((key.take k).map substituteByte).length = k := by
      simp [Nat.le_of_lt hk]
    rw [List.drop_eq_getElem_cons hk, replaceStep_mid _ _ _ k hlen, List.take_succ,
      List.getElem?_eq_getElem hk]
    simp only [Option.toList, List.map_append, List.map_cons, List.map_nil, List.append_assoc,
      List.cons_append, List.nil_append]

theorem ReplaceUnsafeKeyCharacters_eq (s : GoString) :
    ReplaceUnsafeKeyCharacters s = sanitizeReference s := by
  unfold ReplaceUnsafeKeyCharacters sanitizeReference
  split
  · rfl
  · rw [foldl_replaceStep s s.length (Nat.le_refl _)]; simp

theorem ReplaceUnsafeKeyCharacters_of_ne_nil (s : GoString) (h : s ≠ []) :
    ReplaceUnsafeKeyCharacters s = s.map substituteByte := by
  rw [ReplaceUnsafeKeyCharacters_eq, sanitizeReference, if_neg h]

/-- C6: `ReplaceUnsafeKeyCharacters` is idempotent: sanitising a sanitised
string changes nothing. -/
theorem ReplaceUnsafeKeyCharacters_idempotent (s : GoString) :
    ReplaceUnsafeKeyCharacters (ReplaceUnsafeKeyCharacters s) = ReplaceUnsafeKeyCharacters s := by
  by_cases h : s = []
  · subst h; decide
  · have h2 : s.map substituteByte ≠ [] := by simpa using h
    rw [ReplaceUnsafeKeyCharacters_of_ne_nil s h, ReplaceUnsafeKeyCharacters_of_ne_nil _ h2,
      List.map_map]
    apply List.map_congr_left
    intro b _
    exact substituteByte_idem b

/-- C7: `ReplaceUnsafeKeyCharacters` equals the byte-wise reference (the empty
string gives "unnamed"; otherwise every byte is substituted on its own, so the
length is kept and each byte of a multi-byte character gives one underscore),
with the witnesses of the specification. -/
theorem ReplaceUnsafeKeyCharacters_eq_reference :
    (∀ s : GoString, ReplaceUnsafeKeyCharacters s = sanitizeReference s) ∧
    ReplaceUnsafeKeyCharacters (utf8 "") = utf8 "unnamed" ∧
    ReplaceUnsafeKeyCharacters (utf8 "foo.bar") = utf8 "foo_bar" ∧
    ReplaceUnsafeKeyCharacters (utf8 "foo/bar") = utf8 "foo_bar" ∧
    ReplaceUnsafeKeyCharacters (utf8 "99%") = utf8 "99p" ∧
    ReplaceUnsafeKeyCharacters (utf8 "é") = utf8 "__" :=
  ⟨ReplaceUnsafeKeyCharacters_eq, by decide, by decide, by decide, by decide, by decide⟩

/-- C8: the result of `ReplaceUnsafeKeyCharacters` is never empty and each of
its bytes is an ASCII letter, an ASCII digit or an underscore. -/
theorem ReplaceUnsafeKeyCharacters_safe (s : GoString) :
    0 < (ReplaceUnsafeKeyCharacters s).length ∧
    ∀ i : Fin (ReplaceUnsafeKeyCharacters s).length,
      isSafeByte ((ReplaceUnsafeKeyCharacters s).get i) := by
  by_cases h : s = []
  · subst h
    refine ⟨by decide, ?_⟩
    decide
  · rw [ReplaceUnsafeKeyCharacters_of_ne_nil s h]
    refine ⟨?_, ?_⟩
    · simpa [List.length_pos] using h
    · intro i
      simp only [List.get_eq_getElem, List.getElem_map]
      exact substituteByte_safe _

/-! ## Gauge names -/

theorem dropWhile_eq_replicate_append (c : Byte) (l : List Byte) :
    ∃ k, l = List.replicate k c ++ l.dropWhile (fun b => b == c) := by
  induction l with
  | nil => exact ⟨0, rfl⟩
  | cons a t ih =>
    by_cases h : a = c
    · obtain ⟨k, hk⟩ := ih
      refine ⟨k + 1, ?_⟩
      subst h
      simp only [List.dropWhile_cons, beq_self_eq_true, if_true, List.replicate_succ,
        List.cons_append]
      rw [← hk]
    · refine ⟨0, ?_⟩
      simp [List.dropWhile_cons, h]

theorem TrimRight_append_replicate (c : Byte) (l : List Byte) :
    ∃ k, l = TrimRight l c ++ List.replicate k c := by
  obtain ⟨k, hk⟩ := dropWhile_eq_replicate_append c l.reverse
  refine ⟨k, ?_⟩
  have := congrArg List.reverse hk
  simpa [TrimRight] using this

theorem TrimRight_getLast (c : Byte) (l : List Byte) :
    (TrimRight l c).getLast? ≠ some c := by
  unfold TrimRight
  rw [List.getLast?_reverse]
  intro h
  have := List.head?_dropWhile_not (fun b => b == c) l.reverse
  rw [h] at this
  simp at this

theorem TrimRight_cons (c b : Byte) (t : List Byte) :
    TrimRight (b :: t) c =
      if TrimRight t c = [] then (if b = c then [] else [b]) else b :: TrimRight t c := by
  unfold TrimRight
  rw [List.reverse_cons, List.dropWhile_append]
  by_cases h : List.dropWhile (fun x => x == c) t.reverse = []
  · by_cases hb : b = c <;> simp [h, hb]
  · simp [h]

theorem TrimRight_eq_strip (s : GoString) : TrimRight s 95 = stripTrailingUnderscores s := by
  induction s with
  | nil => rfl
  | cons b t ih =>
    rw [TrimRight_cons, stripTrailingUnderscores, ← ih]
    cases h : TrimRight t 95 with
    | nil => simp
    | cons c r => simp

theorem sprintf2_ne_nil (a b : GoString) : sprintf2 a b ≠ [] := by
  simp [sprintf2]

/-- C9: `PrometheusMetricName` is the byte-wise substitution of
`metric ++ "_" ++ value` with the trailing underscores removed; the "unnamed"
fallback plays no part, the concatenation being never empty. The witnesses are
those of `TestPrometheusMetricName`. -/
theorem PrometheusMetricName_eq_reference :
    (∀ metric value : GoString,
      PrometheusMetricName metric value =
        stripTrailingUnderscores ((metric ++ utf8 "_" ++ value).map substituteByte)) ∧
    PrometheusMetricName (utf8 "metric") (utf8 "95%") = utf8 "metric_95p" ∧
    PrometheusMetricName (utf8 "metric") (utf8 "99.9%") = utf8 "metric_99_9p" ∧
    PrometheusMetricName (utf8 "metric") (utf8 "1m.rate") = utf8 "metric_1m_rate" := by
  refine ⟨?_, by decide, by decide, by decide⟩
  intro metric value
  unfold PrometheusMetricName
  simp only []
  rw [ReplaceUnsafeKeyCharacters_of_ne_nil _ (sprintf2_ne_nil metric value), TrimRight_eq_strip]
  rfl

/-- C10: `PrometheusMetricName` strips trailing underscores only: its result
does not end in an underscore, and the sanitised concatenation is that result
followed by underscores alone, so leading and interior underscores stay. -/
theorem PrometheusMetricName_strips_only_trailing (metric value : GoString) :
    (PrometheusMetricName metric value).getLast? ≠ some 95 ∧
    ∃ k, ReplaceUnsafeKeyCharacters (metric ++ utf8 "_" ++ value) =
      PrometheusMetricName metric value ++ List.replicate k 95 := by
  refine ⟨TrimRight_getLast 95 _, ?_⟩
  exact TrimRight_append_replicate 95 (ReplaceUnsafeKeyCharacters (sprintf2 metric value))

/-! ## The cache key of `getOrRegisterPrometheusGauge` on concrete inputs -/

/-- C5 (the code departs from it): for the pair ("mycounter", "count") on a
fresh exporter for "ns" and "subsys" the gauge is stored under the key
"ns_subsys_mycounter_count_count", whereas `PrometheusMetricKey` of the
namespace, the subsystem, the metric and the sub-value is
"ns_subsys_mycounter_count": the sub-value is composed into the key twice. -/
theorem getOrRegisterPrometheusGauge_key_composed_twice :
    getOrRegisterPrometheusGauge freshNames (NewExporter (utf8 "ns") (utf8 "subsys") [] [])
        (utf8 "mycounter") (utf8 "count") =
      .ok (0,
        { namespace_ := utf8 "ns"
          subsystem := utf8 "subsys"
          gauges := [(utf8 "ns_subsys_mycounter_count_count", 0)]
          heap := [⟨⟨utf8 "ns", utf8 "subsys", utf8 "mycounter_count"⟩, Float64.zero⟩]
          registered := [0] }) ∧
    PrometheusMetricKey (utf8 "ns") (utf8 "subsys") (utf8 "mycounter") (utf8 "count") =
      utf8 "ns_subsys_mycounter_count" := by
  constructor <;> decide

/-- C3 (the code departs from it): the pairs ("a", "c_c") and ("a_c_c", "c")
have the gauge names "a_c_c" and "a_c_c_c" but one and the same cache key, so
once the first is registered the lookup for the second is a cache hit that
returns the gauge named "a_c_c". -/
theorem getOrRegisterPrometheusGauge_hit_other_name :
    PrometheusMetricName (utf8 "a") (utf8 "c_c") = utf8 "a_c_c" ∧
    PrometheusMetricName (utf8 "a_c_c") (utf8 "c") = utf8 "a_c_c_c" ∧
    getOrRegisterPrometheusGauge freshNames (NewExporter (utf8 "ns") (utf8 "subsys") [] [])
        (utf8 "a") (utf8 "c_c") =
      .ok (0,
        { namespace_ := utf8 "ns"
          subsystem := utf8 "subsys"
          gauges := [(utf8 "ns_subsys_a_c_c_c_c", 0)]
          heap := [⟨⟨utf8 "ns", utf8 "subsys", utf8 "a_c_c"⟩, Float64.zero⟩]
          registered := [0] }) ∧
    getOrRegisterPrometheusGauge freshNames
        { namespace_ := utf8 "ns"
          subsystem := utf8 "subsys"
          gauges := [(utf8 "ns_subsys_a_c_c_c_c", 0)]
          heap := [⟨⟨utf8 "ns", utf8 "subsys", utf8 "a_c_c"⟩, Float64.zero⟩]
          registered := [0] }
        (utf8 "a_c_c") (utf8 "c") =
      .ok (0,
        { namespace_ := utf8 "ns"
          subsystem := utf8 "subsys"
          gauges := [(utf8 "ns_subsys_a_c_c_c_c", 0)]
          heap := [⟨⟨utf8 "ns", utf8 "subsys", utf8 "a_c_c"⟩, Float64.zero⟩]
          registered := [0] }) := by
  refine ⟨by decide, by decide, by decide, by decide⟩

/-- C4 (the code departs from it): the pairs ("a_b", "c") and ("a", "b_c")
have the same gauge name "a_b_c" but different cache keys, so after the first
is registered the lookup for the second misses and a second gauge of that name
is handed to the target, which rejects it: the call panics. -/
theorem getOrRegisterPrometheusGauge_same_name_registered_twice :
    PrometheusMetricName (utf8 "a_b") (utf8 "c") = utf8 "a_b_c" ∧
    PrometheusMetricName (utf8 "a") (utf8 "b_c") = utf8 "a_b_c" ∧
    getOrRegisterPrometheusGauge freshNames (NewExporter (utf8 "ns") (utf8 "subsys") [] [])
        (utf8 "a_b") (utf8 "c") =
      .ok (0,
        { namespace_ := utf8 "ns"
          subsystem := utf8 "subsys"
          gauges := [(utf8 "ns_subsys_a_b_c_c", 0)]
          heap := [⟨⟨utf8 "ns", utf8 "subsys", utf8 "a_b_c"⟩, Float64.zero⟩]
          registered := [0] }) ∧
    getOrRegisterPrometheusGauge freshNames
        { namespace_ := utf8 "ns"
          subsystem := utf8 "subsys"
          gauges := [(utf8 "ns_subsys_a_b_c_c", 0)]
          heap := [⟨⟨utf8 "ns", utf8 "subsys", utf8 "a_b_c"⟩, Float64.zero⟩]
          registered := [0] }
        (utf8 "a") (utf8 "b_c") =
      .panicked
        { namespace_ := utf8 "ns"
          subsystem := utf8 "subsys"
          gauges := [(utf8 "ns_subsys_a_b_c_c", 0)]
          heap := [⟨⟨utf8 "ns", utf8 "subsys", utf8 "a_b_c"⟩, Float64.zero⟩,
                   ⟨⟨utf8 "ns", utf8 "subsys", utf8 "a_b_c"⟩, Float64.zero⟩]
          registered := [0] } ∧
    cacheKey (NewExporter (utf8 "ns") (utf8 "subsys") [] []) (utf8 "a") (utf8 "b_c") =
      utf8 "ns_subsys_a_b_c_b_c" := by
  refine ⟨by decide, by decide, by decide, by decide, by decide⟩

/-- C1 (the code departs from it): namespace "ns", subsystem "subsys" and the
snapshot with the two pairs ("a", "c_c") of raw value 1 and ("a_c_c", "c") of
raw value 2, whose gauge names "a_c_c" and "a_c_c_c" differ. `ExportOnce` on
the fresh exporter registers a single gauge: visiting "a" first, the gauge
"a_c_c", left at 2, the value of the other pair; visiting "a_c_c" first, the
gauge "a_c_c_c", left at 1. -/
theorem ExportOnce_one_gauge_for_two_names :
    PrometheusMetricName (utf8 "a") (utf8 "c_c") = utf8 "a_c_c" ∧
    PrometheusMetricName (utf8 "a_c_c") (utf8 "c") = utf8 "a_c_c_c" ∧
    ExportOnce freshNames (NewExporter (utf8 "ns") (utf8 "subsys") [] [])
        [(utf8 "a", [(utf8 "c_c", Value.int64 1)]),
         (utf8 "a_c_c", [(utf8 "c", Value.int64 2)])] =
      .ok
        { namespace_ := utf8 "ns"
          subsystem := utf8 "subsys"
          gauges := [(utf8 "ns_subsys_a_c_c_c_c", 0)]
          heap := [⟨⟨utf8 "ns", utf8 "subsys", utf8 "a_c_c"⟩, AsFloat64 (Value.int64 2)⟩]
          registered := [0] } ∧
    ExportOnce freshNames (NewExporter (utf8 "ns") (utf8 "subsys") [] [])
        [(utf8 "a_c_c", [(utf8 "c", Value.int64 2)]),
         (utf8 "a", [(utf8 "c_c", Value.int64 1)])] =
      .ok
        { namespace_ := utf8 "ns"
          subsystem := utf8 "subsys"
          gauges := [(utf8 "ns_subsys_a_c_c_c_c", 0)]
          heap := [⟨⟨utf8 "ns", utf8 "subsys", utf8 "a_c_c_c"⟩, AsFloat64 (Value.int64 1)⟩]
          registered := [0] } := by
  refine ⟨by decide, by decide, by decide, by decide⟩

/-- The end-to-end example of the tests: the snapshot with the one pair
("mycounter", "count") of raw value 1 gives exactly one gauge, with namespace
"ns", subsystem "subsys", name "mycounter_count" and value 1. -/
theorem ExportOnce_mycounter :
    ExportOnce freshNames (NewExporter (utf8 "ns") (utf8 "subsys") [] [])
        [(utf8 "mycounter", [(utf8 "count", Value.int64 1)])] =
      .ok
        { namespace_ := utf8 "ns"
          subsystem := utf8 "subsys"
          gauges := [(utf8 "ns_subsys_mycounter_count_count", 0)]
          heap := [⟨⟨utf8 "ns", utf8 "subsys", utf8 "mycounter_count"⟩, Float64.one⟩]
          registered := [0] } := by
  decide

/-- C2 (counterexample): the snapshot with the pairs ("foo.bar", "count") of
raw value 1 and ("foo/bar", "count") of raw value 2, which share the gauge
"foo_bar_count". A first `ExportOnce` that visits "foo.bar" first leaves the
gauge at 2; a second one on the same snapshot that visits "foo/bar" first
succeeds and leaves the gauge at 1. -/
theorem ExportOnce_second_call_changes_value :
    (triples [(utf8 "foo/bar", [(utf8 "count", Value.int64 2)]),
              (utf8 "foo.bar", [(utf8 "count", Value.int64 1)])]).Perm
      (triples [(utf8 "foo.bar", [(utf8 "count", Value.int64 1)]),
                (utf8 "foo/bar", [(utf8 "count", Value.int64 2)])]) ∧
    ExportOnce freshNames (NewExporter (utf8 "ns") (utf8 "subsys") [] [])
        [(utf8 "foo.bar", [(utf8 "count", Value.int64 1)]),
         (utf8 "foo/bar", [(utf8 "count", Value.int64 2)])] =
      .ok
        { namespace_ := utf8 "ns"
          subsystem := utf8 "subsys"
          gauges := [(utf8 "ns_subsys_foo_bar_count_count", 0)]
          heap := [⟨⟨utf8 "ns", utf8 "subsys", utf8 "foo_bar_count"⟩, AsFloat64 (Value.int64 2)⟩]
          registered := [0] } ∧
    ExportOnce freshNames
        { namespace_ := utf8 "ns"
          subsystem := utf8 "subsys"
          gauges := [(utf8 "ns_subsys_foo_bar_count_count", 0)]
          heap := [⟨⟨utf8 "ns", utf8 "subsys", utf8 "foo_bar_count"⟩, AsFloat64 (Value.int64 2)⟩]
          registered := [0] }
        [(utf8 "foo/bar", [(utf8 "count", Value.int64 2)]),
         (utf8 "foo.bar", [(utf8 "count", Value.int64 1)])] =
      .ok
        { namespace_ := utf8 "ns"
          subsystem := utf8 "subsys"
          gauges := [(utf8 "ns_subsys_foo_bar_count_count", 0)]
          heap := [⟨⟨utf8 "ns", utf8 "subsys", utf8 "foo_bar_count"⟩, AsFloat64 (Value.int64 1)⟩]
          registered := [0] } ∧
    AsFloat64 (Value.int64 1) ≠ AsFloat64 (Value.int64 2) := by
  refine ⟨?_, by decide, by decide, by decide⟩
  exact List.Perm.swap _ _ _

/-! ## The gauge cache -/

theorem lookup_mem (m : List (GoString × Handle)) (k : GoString) (h : Handle)
    (hl : m.lookup k = some h) : (k, h) ∈ m := by
  induction m with
  | nil => simp at hl
  | cons p rest ih =>
    obtain ⟨k1, h1⟩ := p
    by_cases hk : k = k1
    · subst hk
      simp at hl
      simp [hl]
    · have hb : (k == k1) = false := by simpa using hk
      rw [List.lookup_cons, hb] at hl
      exact List.mem_cons_of_mem _ (ih hl)

theorem lookup_filter_ne (m : List (GoString × Handle)) (k k1 : GoString) (hk : k1 ≠ k) :
    (m.filter (fun p => p.1 != k)).lookup k1 = m.lookup k1 := by
  induction m with
  | nil => rfl
  | cons p rest ih =>
    obtain ⟨k2, h2⟩ := p
    by_cases h : k2 = k
    · subst h
      have hb : (k1 == k2) = false := by simpa using hk
      simp [List.filter_cons, List.lookup_cons, hb, ih]
    · have hb : (k2 != k) = true := by simpa using h
      simp only [List.filter_cons, hb, if_true, List.lookup_cons, ih]

theorem lookup_mapStore_self (m : List (GoString × Handle)) (k : GoString) (h : Handle) :
    (mapStore m k h).lookup k = some h := by
  simp [mapStore, List.lookup_cons]

theorem lookup_mapStore_ne (m : List (GoString × Handle)) (k k1 : GoString) (h : Handle)
    (hk : k1 ≠ k) : (mapStore m k h).lookup k1 = m.lookup k1 := by
  have hb : (k1 == k) = false := by simpa using hk
  simp only [mapStore, List.lookup_cons, hb]
  exact lookup_filter_ne m k k1 hk

theorem lookup_inj (m : List (GoString × Handle)) (hm : (m.map Prod.snd).Nodup)
    (k1 k2 : GoString) (h : Handle) (h1 : m.lookup k1 = some h) (h2 : m.lookup k2 = some h) :
    k1 = k2 := by
  have e := List.inj_on_of_nodup_map hm (lookup_mem m k1 h h1) (lookup_mem m k2 h h2) rfl
  exact congrArg Prod.fst e

/-! ## `Set` on a gauge -/

theorem gaugeSet_namespace (s : State) (h : Handle) (v : Float64) :
    (gaugeSet s h v).namespace_ = s.namespace_ := by
  unfold gaugeSet; split <;> rfl

theorem gaugeSet_subsystem (s : State) (h : Handle) (v : Float64) :
    (gaugeSet s h v).subsystem = s.subsystem := by
  unfold gaugeSet; split <;> rfl

theorem gaugeSet_gauges (s : State) (h : Handle) (v : Float64) :
    (gaugeSet s h v).gauges = s.gauges := by
  unfold gaugeSet; split <;> rfl

theorem gaugeSet_registered (s : State) (h : Handle) (v : Float64) :
    (gaugeSet s h v).registered = s.registered := by
  unfold gaugeSet; split <;> rfl

theorem gaugeSet_heap_length (s : State) (h : Handle) (v : Float64) :
    (gaugeSet s h v).heap.length = s.heap.length := by
  unfold gaugeSet; split <;> simp

theorem gaugeSet_heap_ne (s : State) (h : Handle) (v : Float64) (i : Nat) (hi : i ≠ h) :
    (gaugeSet s h v).heap[i]? = s.heap[i]? := by
  unfold gaugeSet
  split
  · simp [List.getElem?_set, Ne.symm hi]
  · rfl

theorem gaugeSet_heap_eq (s : State) (h : Handle) (v : Float64) :
    (gaugeSet s h v).heap[h]? = (s.heap[h]?).map (fun g => { g with value := v }) := by
  unfold gaugeSet
  split
  · next g hg =>
    have hlt : h < s.heap.length := by
      by_contra hc
      rw [List.getElem?_eq_none (Nat.le_of_not_lt hc)] at hg
      exact absurd hg (by simp)
    simp [List.getElem?_set, hg, hlt]
  · next hg => simp [hg]

theorem gaugeSet_heap_opts (s : State) (h : Handle) (v : Float64) (i : Nat) :
    ((gaugeSet s h v).heap[i]?).map Gauge.opts = (s.heap[i]?).map Gauge.opts := by
  by_cases hi : i = h
  · subst hi
    rw [gaugeSet_heap_eq]
    cases s.heap[i]? <;> rfl
  · rw [gaugeSet_heap_ne s h v i hi]

theorem gaugeSet_heap_value (s : State) (h : Handle) (v : Float64) (g : Gauge)
    (hg : (gaugeSet s h v).heap[h]? = some g) : g.value = v := by
  rw [gaugeSet_heap_eq] at hg
  cases hs : s.heap[h]? with
  | none => rw [hs] at hg; simp at hg
  | some g0 =>
    rw [hs] at hg
    simp at hg
    rw [← hg]

theorem set_getElem_same (l : List Gauge) (i : Nat) (h : i < l.length) :
    l.set i l[i] = l := by
  induction l generalizing i with
  | nil => simp at h
  | cons a t ih =>
    cases i with
    | zero => rfl
    | succ j =>
      simp only [List.set_cons_succ, List.getElem_cons_succ]
      rw [ih j (by simpa using h)]

theorem gaugeSet_self (s : State) (h : Handle) (v : Float64)
    (hv : ∀ g, s.heap[h]? = some g → g.value = v) : gaugeSet s h v = s := by
  unfold gaugeSet
  split
  · next g hg =>
    have hval := hv g hg
    have hlt : h < s.heap.length := by
      by_contra hc
      rw [List.getElem?_eq_none (Nat.le_of_not_lt hc)] at hg
      exact absurd hg (by simp)
    have hget : s.heap[h] = g := by
      rw [List.getElem?_eq_getElem hlt] at hg
      exact Option.some.inj hg
    have hsame : ({ g with value := v } : Gauge) = s.heap[h] := by
      rw [hget, ← hval]
    rw [hsame, set_getElem_same]
  · rfl

/-! ## One triple of `ExportOnce` -/

theorem exportTriple_hit (target : Registerer) (s : State) (t : GoString × GoString × Value)
    (h0 : Handle) (hl : s.gauges.lookup (cacheKey s t.1 t.2.1) = some h0) :
    exportTriple target s t = .ok (gaugeSet s h0 (AsFloat64 t.2.2)) := by
  unfold cacheKey at hl
  simp only [exportTriple, getOrRegisterPrometheusGauge, hl]

theorem exportTriple_cases (target : Registerer) (s s1 : State)
    (t : GoString × GoString × Value) (h : exportTriple target s t = .ok s1) :
    (∃ h0, s.gauges.lookup (cacheKey s t.1 t.2.1) = some h0 ∧
      s1 = gaugeSet s h0 (AsFloat64 t.2.2)) ∨
    (s.gauges.lookup (cacheKey s t.1 t.2.1) = none ∧
      s1 = gaugeSet
        { s with
          heap := s.heap ++ [{ opts := { Namespace := s.namespace_, Subsystem := s.subsystem,
                                         Name := PrometheusMetricName t.1 t.2.1 },
                               value := Float64.zero }]
          registered := s.registered ++ [s.heap.length]
          gauges := mapStore s.gauges (cacheKey s t.1 t.2.1) s.heap.length }
        s.heap.length (AsFloat64 t.2.2)) := by
  unfold cacheKey
  cases hl : s.gauges.lookup
      (PrometheusMetricKey s.namespace_ s.subsystem (PrometheusMetricName t.1 t.2.1) t.2.1) with
  | some h0 =>
    left
    refine ⟨h0, rfl, ?_⟩
    simp only [exportTriple, getOrRegisterPrometheusGauge, hl] at h
    exact (Outcome.ok.inj h).symm
  | none =>
    right
    refine ⟨rfl, ?_⟩
    by_cases hacc : target (registeredOpts s)
        { Namespace := s.namespace_, Subsystem := s.subsystem,
          Name := PrometheusMetricName t.1 t.2.1 } = true
    · simp only [exportTriple, getOrRegisterPrometheusGauge, hl, hacc, if_true] at h
      exact (Outcome.ok.inj h).symm
    · simp only [exportTriple, getOrRegisterPrometheusGauge, hl, hacc] at h
      simp at h

/-- What a successful iteration does: namespace and subsystem stay, the cache
keeps its entries and has one for the triple, only the gauge of the triple
changes, and it holds the coerced value. -/
theorem exportTriple_ok (target : Registerer) (s s1 : State)
    (t : GoString × GoString × Value) (h : exportTriple target s t = .ok s1) :
    s1.namespace_ = s.namespace_ ∧ s1.subsystem = s.subsystem ∧
    (∀ k h0, s.gauges.lookup k = some h0 → s1.gauges.lookup k = some h0) ∧
    ∃ ht, s1.gauges.lookup (cacheKey s t.1 t.2.1) = some ht ∧
      (∀ i : Nat, i ≠ ht → s1.heap[i]? = s.heap[i]?) ∧
      (∀ g, s1.heap[ht]? = some g → g.value = AsFloat64 t.2.2) := by
  rcases exportTriple_cases target s s1 t h with ⟨h0, hl, rfl⟩ | ⟨hl, rfl⟩
  · refine ⟨gaugeSet_namespace _ _ _, gaugeSet_subsystem _ _ _, ?_, h0, ?_, ?_, ?_⟩
    · intro k h1 hk
      rw [gaugeSet_gauges]; exact hk
    · rw [gaugeSet_gauges]; exact hl
    · intro i hi
      exact gaugeSet_heap_ne _ _ _ _ hi
    · intro g hg
      exact gaugeSet_heap_value _ _ _ _ hg
  · refine ⟨by rw [gaugeSet_namespace], by rw [gaugeSet_subsystem], ?_, s.heap.length, ?_, ?_, ?_⟩
    · intro k h1 hk
      rw [gaugeSet_gauges]
      have hne : k ≠ cacheKey s t.1 t.2.1 := by
        intro e
        rw [e, hl] at hk
        exact absurd hk (by simp)
      simp only []
      rw [lookup_mapStore_ne _ _ _ _ hne]
      exact hk
    · rw [gaugeSet_gauges]
      exact lookup_mapStore_self _ _ _
    · intro i hi
      rw [gaugeSet_heap_ne _ _ _ _ hi]
      simp only []
      rcases Nat.lt_or_gt_of_ne hi with hlt | hgt
      · exact List.getElem?_append_left hlt
      · rw [List.getElem?_eq_none, List.getElem?_eq_none]
        · exact Nat.le_of_lt hgt
        · simp; omega
    · intro g hg
      exact gaugeSet_heap_value _ _ _ _ hg

theorem exportTriple_wf (target : Registerer) (s s1 : State)
    (t : GoString × GoString × Value) (h : exportTriple target s t = .ok s1)
    (hwf : WellFormed s) : WellFormed s1 := by
  obtain ⟨hnd, hval⟩ := hwf
  rcases exportTriple_cases target s s1 t h with ⟨h0, _, rfl⟩ | ⟨_, rfl⟩
  · refine ⟨by rw [gaugeSet_gauges]; exact hnd, ?_⟩
    intro p hp
    rw [gaugeSet_gauges] at hp
    rw [gaugeSet_heap_length]
    exact hval p hp
  · refine ⟨?_, ?_⟩
    · rw [gaugeSet_gauges]
      simp only [mapStore, List.map_cons, List.nodup_cons]
      refine ⟨?_, ?_⟩
      · intro hmem
        obtain ⟨p, hp, hp2⟩ := List.mem_map.1 hmem
        have hlt := hval p (List.mem_of_mem_filter hp)
        rw [hp2] at hlt
        exact Nat.lt_irrefl _ hlt
      · exact List.Nodup.sublist (List.Sublist.map _ (List.filter_sublist _)) hnd
    · intro p hp
      rw [gaugeSet_gauges] at hp
      rw [gaugeSet_heap_length]
      simp only [mapStore, List.mem_cons] at hp
      simp only [List.length_append, List.length_singleton]
      rcases hp with rfl | hp
      · exact Nat.lt_succ_self _
      · exact Nat.lt_succ_of_lt (hval p (List.mem_of_mem_filter hp))

/-! ## The loops of `ExportOnce` -/

theorem cacheKey_congr (s u : State) (hn : u.namespace_ = s.namespace_)
    (hs : u.subsystem = s.subsystem) (m v : GoString) : cacheKey u m v = cacheKey s m v := by
  unfold cacheKey; rw [hn, hs]

theorem exportTriples_cons (target : Registerer) (s s1 : State)
    (t : GoString × GoString × Value) (rest : List (GoString × GoString × Value))
    (h : exportTriples target s (t :: rest) = .ok s1) :
    ∃ s0, exportTriple target s t = .ok s0 ∧ exportTriples target s0 rest = .ok s1 := by
  rw [exportTriples] at h
  cases hstep : exportTriple target s t with
  | ok s0 =>
    rw [hstep] at h
    exact ⟨s0, rfl, h⟩
  | panicked e =>
    rw [hstep] at h
    cases h

theorem exportTriples_append (target : Registerer) (s : State)
    (l1 l2 : List (GoString × GoString × Value)) :
    exportTriples target s (l1 ++ l2) =
      match exportTriples target s l1 with
      | .ok s1 => exportTriples target s1 l2
      | .panicked e => .panicked e := by
  induction l1 generalizing s with
  | nil => rfl
  | cons t rest ih =>
    simp only [List.cons_append, exportTriples]
    cases exportTriple target s t with
    | ok s0 => exact ih s0
    | panicked e => rfl

theorem exportValues_eq (target : Registerer) (m : GoString) (s : State)
    (vs : List (GoString × Value)) :
    exportValues target m s vs =
      exportTriples target s (vs.map (fun p => (m, p.1, p.2))) := by
  induction vs generalizing s with
  | nil => rfl
  | cons p rest ih =>
    obtain ⟨v, x⟩ := p
    simp only [exportValues, List.map_cons, exportTriples, exportTriple]
    cases getOrRegisterPrometheusGauge target s m v with
    | ok r =>
      obtain ⟨g, s0⟩ := r
      exact ih _
    | panicked e => rfl

/-- The nested loops of `ExportOnce` visit the triples of the snapshot one
after the other. -/
theorem ExportOnce_eq_exportTriples (target : Registerer) (s : State) (snap : Snapshot) :
    ExportOnce target s snap = exportTriples target s (triples snap) := by
  induction snap generalizing s with
  | nil => rfl
  | cons mv rest ih =>
    obtain ⟨m, vs⟩ := mv
    have ht : triples ((m, vs) :: rest) = vs.map (fun p => (m, p.1, p.2)) ++ triples rest := by
      simp [triples]
    rw [ht, exportTriples_append, ExportOnce, exportValues_eq]
    cases exportTriples target s (vs.map (fun p => (m, p.1, p.2))) with
    | ok s0 => exact ih s0
    | panicked e => rfl

/-- A successful run keeps namespace, subsystem and every cache entry. -/
theorem exportTriples_mono (target : Registerer) (l : List (GoString × GoString × Value))
    (s s1 : State) (h : exportTriples target s l = .ok s1) :
    s1.namespace_ = s.namespace_ ∧ s1.subsystem = s.subsystem ∧
    ∀ k h0, s.gauges.lookup k = some h0 → s1.gauges.lookup k = some h0 := by
  induction l generalizing s with
  | nil =>
    cases h
    exact ⟨rfl, rfl, fun _ _ hk => hk⟩
  | cons t rest ih =>
    obtain ⟨s0, hstep, hrest⟩ := exportTriples_cons target s s1 t rest h
    obtain ⟨hn, hs, hm, _⟩ := exportTriple_ok target s s0 t hstep
    obtain ⟨hn1, hs1, hm1⟩ := ih s0 hrest
    exact ⟨hn1.trans hn, hs1.trans hs, fun k h0 hk => hm1 k h0 (hm k h0 hk)⟩

/-- After a successful run the cache has an entry for every triple visited. -/
theorem exportTriples_present (target : Registerer) (l : List (GoString × GoString × Value))
    (s s1 : State) (h : exportTriples target s l = .ok s1) :
    ∀ t ∈ l, ∃ ht, s1.gauges.lookup (cacheKey s1 t.1 t.2.1) = some ht := by
  induction l generalizing s with
  | nil => intro t ht; cases ht
  | cons t rest ih =>
    obtain ⟨s0, hstep, hrest⟩ := exportTriples_cons target s s1 t rest h
    obtain ⟨hn, hs, _, ht, hlook, _⟩ := exportTriple_ok target s s0 t hstep
    obtain ⟨hn1, hs1, hm1⟩ := exportTriples_mono target rest s0 s1 hrest
    intro t1 hmem
    rcases List.mem_cons.1 hmem with rfl | hmem
    · refine ⟨ht, ?_⟩
      rw [cacheKey_congr s s1 (hn1.trans hn) (hs1.trans hs)]
      exact hm1 _ _ hlook
    · exact ih s0 hrest t1 hmem

/-- A successful run changes no gauge other than those of its triples and
creates none that is not among them. -/
theorem exportTriples_frame (target : Registerer) (l : List (GoString × GoString × Value))
    (s s1 : State) (h : exportTriples target s l = .ok s1) :
    ∀ i : Nat, i ∉ touched s1 l → s1.heap[i]? = s.heap[i]? := by
  induction l generalizing s with
  | nil =>
    cases h
    intro i _; rfl
  | cons t rest ih =>
    obtain ⟨s0, hstep, hrest⟩ := exportTriples_cons target s s1 t rest h
    obtain ⟨hn, hs, _, ht, hlook, hframe, _⟩ := exportTriple_ok target s s0 t hstep
    obtain ⟨hn1, hs1, hm1⟩ := exportTriples_mono target rest s0 s1 hrest
    have hlook1 : s1.gauges.lookup (cacheKey s1 t.1 t.2.1) = some ht := by
      rw [cacheKey_congr s s1 (hn1.trans hn) (hs1.trans hs)]
      exact hm1 _ _ hlook
    intro i hi
    have htouched : touched s1 (t :: rest) = ht :: touched s1 rest := by
      simp [touched, List.filterMap_cons, hlook1]
    rw [htouched, List.mem_cons, not_or] at hi
    rw [ih s0 hrest i hi.2]
    exact hframe i hi.1

/-- When the cache has an entry for every triple, a run succeeds without
creating or registering a gauge. -/
theorem exportTriples_all_hits (target : Registerer) (l : List (GoString × GoString × Value))
    (u : State) (h : ∀ t ∈ l, ∃ ht, u.gauges.lookup (cacheKey u t.1 t.2.1) = some ht) :
    ∃ u1, exportTriples target u l = .ok u1 ∧ u1.namespace_ = u.namespace_ ∧
      u1.subsystem = u.subsystem ∧ u1.gauges = u.gauges ∧ u1.registered = u.registered ∧
      ∀ i : Nat, (u1.heap[i]?).map Gauge.opts = (u.heap[i]?).map Gauge.opts := by
  induction l generalizing u with
  | nil => exact ⟨u, rfl, rfl, rfl, rfl, rfl, fun _ => rfl⟩
  | cons t rest ih =>
    obtain ⟨ht, hlook⟩ := h t (List.mem_cons_self _ _)
    have hstep := exportTriple_hit target u t ht hlook
    have hrest : ∀ t1 ∈ rest, ∃ h1,
        (gaugeSet u ht (AsFloat64 t.2.2)).gauges.lookup
          (cacheKey (gaugeSet u ht (AsFloat64 t.2.2)) t1.1 t1.2.1) = some h1 := by
      intro t1 hmem
      rw [gaugeSet_gauges,
        cacheKey_congr u _ (gaugeSet_namespace _ _ _) (gaugeSet_subsystem _ _ _)]
      exact h t1 (List.mem_cons_of_mem _ hmem)
    obtain ⟨u1, hrun, hn, hs, hg, hr, ho⟩ := ih _ hrest
    refine ⟨u1, ?_, ?_, ?_, ?_, ?_, ?_⟩
    · rw [exportTriples, hstep]; exact hrun
    · rw [hn, gaugeSet_namespace]
    · rw [hs, gaugeSet_subsystem]
    · rw [hg, gaugeSet_gauges]
    · rw [hr, gaugeSet_registered]
    · intro i
      rw [ho i, gaugeSet_heap_opts]

/-! ## A second `ExportOnce` -/

theorem State.ext_of_fields (u s : State) (hn : u.namespace_ = s.namespace_)
    (hs : u.subsystem = s.subsystem) (hg : u.gauges = s.gauges) (hh : u.heap = s.heap)
    (hr : u.registered = s.registered) : u = s := by
  cases u; cases s
  simp only [State.mk.injEq]
  exact ⟨hn, hs, hg, hh, hr⟩

theorem AgreeOutside_nil (u s : State) (h : AgreeOutside [] u s) : u = s := by
  obtain ⟨hn, hs, hg, hr, _, hv⟩ := h
  refine State.ext_of_fields u s hn hs hg ?_ hr
  apply List.ext_getElem?
  intro i
  exact hv i (List.not_mem_nil i)

theorem AgreeOutside_refl (T : List Handle) (s : State) : AgreeOutside T s s :=
  ⟨rfl, rfl, rfl, rfl, fun _ => rfl, fun _ _ => rfl⟩

/-- Replaying a successful run on its own result, or on a state that differs
from the result only in the values of the gauges the run sets, ends in that
same result. -/
theorem exportTriples_replay (target : Registerer) (l : List (GoString × GoString × Value))
    (s s1 : State) (h : exportTriples target s l = .ok s1) :
    ∀ u, AgreeOutside (touched s1 l) u s1 → exportTriples target u l = .ok s1 := by
  induction l generalizing s with
  | nil =>
    cases h
    intro u hu
    rw [AgreeOutside_nil u _ hu]
    rfl
  | cons t rest ih =>
    obtain ⟨s0, hstep, hrest⟩ := exportTriples_cons target s s1 t rest h
    obtain ⟨hn, hs, _, ht, hlook, _, hvalue⟩ := exportTriple_ok target s s0 t hstep
    obtain ⟨hn1, hs1, hm1⟩ := exportTriples_mono target rest s0 s1 hrest
    have hlook1 : s1.gauges.lookup (cacheKey s1 t.1 t.2.1) = some ht := by
      rw [cacheKey_congr s s1 (hn1.trans hn) (hs1.trans hs)]
      exact hm1 _ _ hlook
    have htouched : touched s1 (t :: rest) = ht :: touched s1 rest := by
      simp [touched, List.filterMap_cons, hlook1]
    intro u hu
    rw [htouched] at hu
    obtain ⟨hun, hus, hug, hur, huo, huv⟩ := hu
    have hulook : u.gauges.lookup (cacheKey u t.1 t.2.1) = some ht := by
      rw [hug, cacheKey_congr s1 u hun hus]
      exact hlook1
    rw [exportTriples, exportTriple_hit target u t ht hulook]
    apply ih s0 hrest
    refine ⟨?_, ?_, ?_, ?_, ?_, ?_⟩
    · rw [gaugeSet_namespace]; exact hun
    · rw [gaugeSet_subsystem]; exact hus
    · rw [gaugeSet_gauges]; exact hug
    · rw [gaugeSet_registered]; exact hur
    · intro i
      rw [gaugeSet_heap_opts]; exact huo i
    · intro i hi
      by_cases hih : i = ht
      · subst hih
        have hframe := exportTriples_frame target rest s0 s1 hrest i hi
        rw [gaugeSet_heap_eq]
        have hopts := huo i
        cases hs1i : s1.heap[i]? with
        | none =>
          rw [hs1i] at hopts
          cases hui : u.heap[i]? with
          | none => rfl
          | some g => rw [hui] at hopts; simp at hopts
        | some g =>
          rw [hs1i] at hopts
          have hgv : g.value = AsFloat64 t.2.2 := hvalue g (by rw [← hframe]; exact hs1i)
          cases hui : u.heap[i]? with
          | none => rw [hui] at hopts; simp at hopts
          | some g1 =>
            rw [hui] at hopts
            simp only [Option.map_some', Option.some.injEq] at hopts
            simp only [Option.map_some', Option.some.injEq]
            cases g; cases g1
            simp only [Gauge.mk.injEq] at *
            exact ⟨hopts, hgv.symm⟩
      · rw [gaugeSet_heap_ne _ _ _ _ hih]
        apply huv
        simp only [List.mem_cons, not_or]
        exact ⟨hih, hi⟩

/-- From a well-formed state, after a successful run over triples with
pairwise distinct cache keys, the state is well-formed and the gauge of every
triple holds the coerced value of that triple. -/
theorem exportTriples_settled (target : Registerer) (l : List (GoString × GoString × Value))
    (s s1 : State) (h : exportTriples target s l = .ok s1) (hwf : WellFormed s)
    (hnd : (l.map (fun t => cacheKey s t.1 t.2.1)).Nodup) :
    WellFormed s1 ∧
    ∀ t ∈ l, ∃ ht g, s1.gauges.lookup (cacheKey s1 t.1 t.2.1) = some ht ∧
      s1.heap[ht]? = some g ∧ g.value = AsFloat64 t.2.2 := by
  induction l generalizing s with
  | nil =>
    cases h
    exact ⟨hwf, fun t ht => by cases ht⟩
  | cons t rest ih =>
    obtain ⟨s0, hstep, hrest⟩ := exportTriples_cons target s s1 t rest h
    obtain ⟨hn, hs, _, ht, hlook, _, hvalue⟩ := exportTriple_ok target s s0 t hstep
    obtain ⟨hn1, hs1, hm1⟩ := exportTriples_mono target rest s0 s1 hrest
    have hwf0 := exportTriple_wf target s s0 t hstep hwf
    rw [List.map_cons, List.nodup_cons] at hnd
    have hnd0 : (rest.map (fun t => cacheKey s0 t.1 t.2.1)).Nodup := by
      have hfun : (fun t : GoString × GoString × Value => cacheKey s0 t.1 t.2.1) =
          (fun t => cacheKey s t.1 t.2.1) := by
        funext t1; exact cacheKey_congr s s0 hn hs _ _
      rw [hfun]; exact hnd.2
    obtain ⟨hwf1, hall⟩ := ih s0 hrest hwf0 hnd0
    refine ⟨hwf1, ?_⟩
    have hkey1 : ∀ t1 : GoString × GoString × Value,
        cacheKey s1 t1.1 t1.2.1 = cacheKey s t1.1 t1.2.1 :=
      fun t1 => cacheKey_congr s s1 (hn1.trans hn) (hs1.trans hs) _ _
    have hlook1 : s1.gauges.lookup (cacheKey s1 t.1 t.2.1) = some ht := by
      rw [hkey1]; exact hm1 _ _ hlook
    intro t1 hmem
    rcases List.mem_cons.1 hmem with rfl | hmem
    · have hnot : ht ∉ touched s1 rest := by
        intro hin
        obtain ⟨t2, ht2, hl2⟩ := List.mem_filterMap.1 hin
        have hk := lookup_inj s1.gauges hwf1.1 _ _ ht hl2 hlook1
        rw [hkey1, hkey1] at hk
        apply hnd.1
        rw [← hk]
        exact List.mem_map.2 ⟨t2, ht2, rfl⟩
      have hframe := exportTriples_frame target rest s0 s1 hrest ht hnot
      have hlt : ht < s0.heap.length := hwf0.2 _ (lookup_mem _ _ _ hlook)
      refine ⟨ht, s0.heap[ht], hlook1, ?_, ?_⟩
      · rw [hframe]; exact List.getElem?_eq_getElem hlt
      · exact hvalue _ (List.getElem?_eq_getElem hlt)
    · exact hall t1 hmem

/-- A run over triples whose gauges already hold their coerced values
changes nothing. -/
theorem exportTriples_noop (target : Registerer) (l : List (GoString × GoString × Value))
    (u : State)
    (h : ∀ t ∈ l, ∃ ht g, u.gauges.lookup (cacheKey u t.1 t.2.1) = some ht ∧
      u.heap[ht]? = some g ∧ g.value = AsFloat64 t.2.2) :
    exportTriples target u l = .ok u := by
  induction l with
  | nil => rfl
  | cons t rest ih =>
    obtain ⟨ht, g, hlook, hg, hv⟩ := h t (List.mem_cons_self _ _)
    have hself : gaugeSet u ht (AsFloat64 t.2.2) = u := by
      apply gaugeSet_self
      intro g1 hg1
      rw [hg] at hg1
      rw [← Option.some.inj hg1]; exact hv
    rw [exportTriples, exportTriple_hit target u t ht hlook, hself]
    exact ih (fun t1 hmem => h t1 (List.mem_cons_of_mem _ hmem))

theorem exportTriples_wf (target : Registerer) (l : List (GoString × GoString × Value))
    (s s1 : State) (h : exportTriples target s l = .ok s1) (hwf : WellFormed s) :
    WellFormed s1 := by
  induction l generalizing s with
  | nil => cases h; exact hwf
  | cons t rest ih =>
    obtain ⟨s0, hstep, hrest⟩ := exportTriples_cons target s s1 t rest h
    exact ih s0 hrest (exportTriple_wf target s s0 t hstep hwf)

/-- A new exporter is well-formed, and `ExportOnce` keeps an exporter so. -/
theorem WellFormed_reachable (target : Registerer) (namespace_ subsystem : GoString)
    (heap : List Gauge) (registered : List Handle) :
    WellFormed (NewExporter namespace_ subsystem heap registered) ∧
    ∀ (s s1 : State) (snap : Snapshot), WellFormed s → ExportOnce target s snap = .ok s1 →
      WellFormed s1 := by
  refine ⟨⟨List.nodup_nil, fun p hp => by cases hp⟩, ?_⟩
  intro s s1 snap hwf h
  rw [ExportOnce_eq_exportTriples] at h
  exact exportTriples_wf target _ s s1 h hwf

/-- C2 (as amended): after a successful `ExportOnce`, a second one on the same
snapshot, in whatever order it visits the triples, succeeds, registers no
gauge, creates none and leaves the cache as it is; and it leaves every gauge
at the value it had after the first call when it visits the triples in the
same order, or when the exporter is well-formed and no two pairs of the
snapshot share a cache key. -/
theorem ExportOnce_twice (target : Registerer) (s s1 : State) (snap snap2 : Snapshot)
    (hsame : (triples snap2).Perm (triples snap))
    (hfirst : ExportOnce target s snap = .ok s1) :
    ∃ s2, ExportOnce target s1 snap2 = .ok s2 ∧
      s2.registered = s1.registered ∧ s2.gauges = s1.gauges ∧
      s2.heap.map Gauge.opts = s1.heap.map Gauge.opts ∧
      ((triples snap2 = triples snap ∨
        (WellFormed s ∧ ((triples snap).map (fun t => cacheKey s t.1 t.2.1)).Nodup)) →
        s2 = s1) := by
  rw [ExportOnce_eq_exportTriples] at hfirst
  have hpresent := exportTriples_present target _ s s1 hfirst
  have hhits : ∀ t ∈ triples snap2, ∃ ht,
      s1.gauges.lookup (cacheKey s1 t.1 t.2.1) = some ht :=
    fun t ht => hpresent t ((List.Perm.mem_iff hsame).1 ht)
  obtain ⟨s2, hrun, _, _, hg, hr, ho⟩ := exportTriples_all_hits target _ s1 hhits
  refine ⟨s2, ?_, hr, hg, ?_, ?_⟩
  · rw [ExportOnce_eq_exportTriples]; exact hrun
  · apply List.ext_getElem?
    intro i
    rw [List.getElem?_map, List.getElem?_map]
    exact ho i
  · intro hcase
    have hagain : exportTriples target s1 (triples snap2) = .ok s1 := by
      rcases hcase with heq | ⟨hwf, hnd⟩
      · rw [heq]
        exact exportTriples_replay target _ s s1 hfirst s1 (AgreeOutside_refl _ s1)
      · obtain ⟨_, hall⟩ := exportTriples_settled target _ s s1 hfirst hwf hnd
        apply exportTriples_noop
        intro t ht
        exact hall t ((List.Perm.mem_iff hsame).1 ht)
    rw [hagain] at hrun
    exact (Outcome.ok.inj hrun).symm

/-- C2 (witness): a meter-like snapshot with two sub-values on a fresh
exporter, visited in one order and then in the other. -/
theorem ExportOnce_twice_witness :
    (triples meterSwapped).Perm (triples meterSnapshot) ∧
    ExportOnce freshNames (NewExporter (utf8 "ns") (utf8 "subsys") [] []) meterSnapshot =
      .ok meterExported ∧
    ∃ s2, ExportOnce freshNames meterExported meterSwapped = .ok s2 ∧
      s2.registered = meterExported.registered ∧ s2.gauges = meterExported.gauges ∧
      s2.heap.map Gauge.opts = meterExported.heap.map Gauge.opts ∧
      ((triples meterSwapped = triples meterSnapshot ∨
        (WellFormed (NewExporter (utf8 "ns") (utf8 "subsys") [] []) ∧
          ((triples meterSnapshot).map (fun t =>
            cacheKey (NewExporter (utf8 "ns") (utf8 "subsys") [] []) t.1 t.2.1)).Nodup)) →
        s2 = meterExported) :=
  ⟨List.Perm.swap _ _ _, by decide,
    ExportOnce_twice freshNames (NewExporter (utf8 "ns") (utf8 "subsys") [] []) meterExported
      meterSnapshot meterSwapped (List.Perm.swap _ _ _) (by decide)⟩

/-! ## Keys of names that need no sanitising -/

/-- C11: `PrometheusMetricKey` is the namespace, the subsystem and the composed
gauge name joined by underscores, with namespace and subsystem used as they
are given; the second equation shows unsanitised arguments passing through. -/
theorem PrometheusMetricKey_eq :
    (∀ namespace_ subsystem metric valueName : GoString,
      PrometheusMetricKey namespace_ subsystem metric valueName =
        namespace_ ++ utf8 "_" ++ subsystem ++ utf8 "_" ++
          PrometheusMetricName metric valueName) ∧
    PrometheusMetricKey (utf8 "a.b") (utf8 "") (utf8 "metric") (utf8 "95%") =
      utf8 "a.b__metric_95p" := by
  refine ⟨fun _ _ _ _ => rfl, by decide⟩

theorem substituteByte_alnum : ∀ b : Byte, isAlnumByte b → substituteByte b = b := by
  decide

theorem alnum_ne_underscore : ∀ b : Byte, isAlnumByte b → b ≠ 95 := by
  decide

theorem substituteByte_eq_underscore_iff :
    ∀ b : Byte, substituteByte b = 95 ↔ ¬ isKeptByte b := by
  decide

theorem TrimRight_concat (c b : Byte) (l : List Byte) :
    TrimRight (l ++ [b]) c = if b = c then TrimRight l c else l ++ [b] := by
  unfold TrimRight
  rw [List.reverse_append, List.reverse_singleton, List.singleton_append, List.dropWhile_cons]
  by_cases h : b = c
  · simp [h]
  · simp [h]

theorem TrimRight_of_getLast (c : Byte) (l : List Byte) (h : ∀ b ∈ l.getLast?, b ≠ c) :
    TrimRight l c = l := by
  rcases List.eq_nil_or_concat l with rfl | ⟨l0, b, rfl⟩
  · rfl
  · rw [List.concat_eq_append] at h ⊢
    rw [TrimRight_concat, if_neg]
    apply h
    simp

theorem getLast_alnum (l : List Byte) (hl : ∀ b ∈ l, isAlnumByte b) :
    ∀ b ∈ l.getLast?, b ≠ 95 := by
  intro b hb
  exact alnum_ne_underscore b (hl b (List.mem_of_getLast?_eq_some hb))

/-- On names made of letters and digits only, the composed name is the metric
alone when the sub-value is empty and metric, underscore, sub-value
otherwise. -/
theorem PrometheusMetricName_alnum (m v : GoString) (hm : ∀ b ∈ m, isAlnumByte b)
    (hv : ∀ b ∈ v, isAlnumByte b) :
    PrometheusMetricName m v = if v = [] then m else m ++ 95 :: v := by
  unfold PrometheusMetricName
  simp only []
  rw [ReplaceUnsafeKeyCharacters_of_ne_nil _ (sprintf2_ne_nil m v)]
  have hsan : (sprintf2 m v).map substituteByte = m ++ 95 :: v := by
    unfold sprintf2
    rw [List.map_append, List.map_append, List.append_assoc]
    have h1 : m.map substituteByte = m := by
      conv_rhs => rw [← List.map_id m]
      exact List.map_congr_left (fun b hb => substituteByte_alnum b (hm b hb))
    have h2 : v.map substituteByte = v := by
      conv_rhs => rw [← List.map_id v]
      exact List.map_congr_left (fun b hb => substituteByte_alnum b (hv b hb))
    rw [h1, h2]
    rfl
  rw [hsan]
  by_cases hve : v = []
  · subst hve
    rw [if_pos rfl]
    have : m ++ [(95 : Byte)] = m ++ [95] := rfl
    rw [TrimRight_concat, if_pos rfl]
    exact TrimRight_of_getLast 95 m (getLast_alnum m hm)
  · rw [if_neg hve]
    apply TrimRight_of_getLast
    intro b hb
    have hlast : (m ++ 95 :: v).getLast? = v.getLast? := by
      rw [show m ++ 95 :: v = (m ++ [95]) ++ v by simp]
      exact List.getLast?_append_of_ne_nil _ hve
    rw [hlast] at hb
    exact getLast_alnum v hv b hb

theorem append_cons_inj (c : Byte) (m m1 v v1 : List Byte) (hm : c ∉ m) (hm1 : c ∉ m1)
    (h : m ++ c :: v = m1 ++ c :: v1) : m = m1 ∧ v = v1 := by
  induction m generalizing m1 with
  | nil =>
    cases m1 with
    | nil => simpa using h
    | cons a t =>
      simp only [List.nil_append, List.cons_append, List.cons.injEq] at h
      exact absurd (h.1 ▸ List.mem_cons_self _ _) hm1
  | cons a t ih =>
    cases m1 with
    | nil =>
      simp only [List.nil_append, List.cons_append, List.cons.injEq] at h
      exact absurd (h.1 ▸ List.mem_cons_self _ _) hm
    | cons a1 t1 =>
      simp only [List.cons_append, List.cons.injEq] at h
      obtain ⟨e1, e2⟩ := ih t1 (fun hc => hm (List.mem_cons_of_mem _ hc))
        (fun hc => hm1 (List.mem_cons_of_mem _ hc)) h.2
      exact ⟨by rw [h.1, e1], e2⟩

theorem not_mem_underscore_of_alnum (l : List Byte) (hl : ∀ b ∈ l, isAlnumByte b) :
    (95 : Byte) ∉ l :=
  fun h => alnum_ne_underscore 95 (hl 95 h) rfl

/-- C12: for fixed namespace and subsystem, two pairs of names made of ASCII
letters and digits only that get the same `PrometheusMetricKey` are the same
pair. -/
theorem PrometheusMetricKey_injective_alnum (namespace_ subsystem m v m1 v1 : GoString)
    (hm : ∀ b ∈ m, isAlnumByte b) (hv : ∀ b ∈ v, isAlnumByte b)
    (hm1 : ∀ b ∈ m1, isAlnumByte b) (hv1 : ∀ b ∈ v1, isAlnumByte b)
    (hkey : PrometheusMetricKey namespace_ subsystem m v =
      PrometheusMetricKey namespace_ subsystem m1 v1) :
    m = m1 ∧ v = v1 := by
  have hname : PrometheusMetricName m v = PrometheusMetricName m1 v1 := by
    unfold PrometheusMetricKey sprintf3 at hkey
    exact List.append_cancel_left hkey
  rw [PrometheusMetricName_alnum m v hm hv, PrometheusMetricName_alnum m1 v1 hm1 hv1] at hname
  have hu := not_mem_underscore_of_alnum m hm
  have hu1 := not_mem_underscore_of_alnum m1 hm1
  by_cases hve : v = [] <;> by_cases hve1 : v1 = []
  · rw [if_pos hve, if_pos hve1] at hname
    exact ⟨hname, by rw [hve, hve1]⟩
  · rw [if_pos hve, if_neg hve1] at hname
    exact absurd (hname ▸ (by simp : (95 : Byte) ∈ m1 ++ 95 :: v1)) hu
  · rw [if_neg hve, if_pos hve1] at hname
    exact absurd (hname ▸ (by simp : (95 : Byte) ∈ m ++ 95 :: v)) hu1
  · rw [if_neg hve, if_neg hve1] at hname
    exact append_cons_inj 95 m m1 v v1 hu hu1 hname

/-- C12 (witness): the pair ("mycounter", "count") under "ns" and "subsys". -/
theorem PrometheusMetricKey_injective_alnum_witness :
    (∀ b ∈ utf8 "mycounter", isAlnumByte b) ∧ (∀ b ∈ utf8 "count", isAlnumByte b) ∧
    PrometheusMetricKey (utf8 "ns") (utf8 "subsys") (utf8 "mycounter") (utf8 "count") =
      PrometheusMetricKey (utf8 "ns") (utf8 "subsys") (utf8 "mycounter") (utf8 "count") ∧
    utf8 "mycounter" = utf8 "mycounter" ∧ utf8 "count" = utf8 "count" :=
  ⟨by decide, by decide, rfl,
    PrometheusMetricKey_injective_alnum (utf8 "ns") (utf8 "subsys") (utf8 "mycounter")
      (utf8 "count") (utf8 "mycounter") (utf8 "count") (by decide) (by decide) (by decide)
      (by decide) rfl⟩

/-! ## Value coercion -/

/-- C13: `AsFloat64` is a total function that agrees with the reference
coercion on every value: a `float64` is returned unchanged, an `int64` is
converted, a string gives 1 when non-empty and 0 when empty, any other value
gives 0. The four witnesses are those of `TestAsFloat64`. -/
theorem AsFloat64_eq_reference :
    (∀ value : Value, AsFloat64 value = toFloatReference value) ∧
    AsFloat64 (Value.string (utf8 "")) = Float64.zero ∧
    AsFloat64 (Value.string (utf8 "foo")) = Float64.one ∧
    AsFloat64 (Value.int64 12) = ⟨0x4028000000000000⟩ ∧
    AsFloat64 (Value.float64 ⟨0x402A000000000000⟩) = ⟨0x402A000000000000⟩ := by
  refine ⟨?_, by decide, by decide, by decide, by decide⟩
  intro value
  cases value with
  | float64 f => rfl
  | int64 i => rfl
  | string t =>
    cases t with
    | nil => rfl
    | cons b r => simp [AsFloat64, toFloatReference]
  | other => rfl

/-! ## Empty gauge names -/

theorem TrimRight_eq_nil_iff (c : Byte) (l : List Byte) :
    TrimRight l c = [] ↔ ∀ b ∈ l, b = c := by
  unfold TrimRight
  rw [List.reverse_eq_nil_iff, List.dropWhile_eq_nil_iff]
  simp

/-- C19: the composed gauge name is empty exactly when neither the metric nor
the sub-value holds an ASCII letter, an ASCII digit or a percent sign; the
examples are two empty names, two names of punctuation, and a lone percent
sign. -/
theorem PrometheusMetricName_eq_nil_iff :
    (∀ metric value : GoString,
      PrometheusMetricName metric value = [] ↔
        (∀ b ∈ metric, ¬ isKeptByte b) ∧ (∀ b ∈ value, ¬ isKeptByte b)) ∧
    PrometheusMetricName (utf8 "") (utf8 "") = utf8 "" ∧
    PrometheusMetricName (utf8 "..") (utf8 "-/") = utf8 "" ∧
    PrometheusMetricName (utf8 "") (utf8 "%") = utf8 "_p" := by
  refine ⟨?_, by decide, by decide, by decide⟩
  intro metric value
  unfold PrometheusMetricName
  simp only []
  rw [ReplaceUnsafeKeyCharacters_of_ne_nil _ (sprintf2_ne_nil metric value),
    TrimRight_eq_nil_iff]
  unfold sprintf2
  simp only [List.mem_map, List.mem_append, List.mem_singleton, forall_exists_index, and_imp]
  constructor
  · intro h
    refine ⟨fun b hb => ?_, fun b hb => ?_⟩
    · exact (substituteByte_eq_underscore_iff b).1 (h _ b (Or.inl (Or.inl hb)) rfl)
    · exact (substituteByte_eq_underscore_iff b).1 (h _ b (Or.inr hb) rfl)
  · rintro ⟨h1, h2⟩ b a ha rfl
    rcases ha with (ha | ha) | ha
    · exact (substituteByte_eq_underscore_iff a).2 (h1 a ha)
    · subst ha; decide
    · exact (substituteByte_eq_underscore_iff a).2 (h2 a ha)

/-! ## `getOrRegisterPrometheusGauge`: hit, miss and failure -/

theorem getOrRegister_of_hit (target : Registerer) (s : State) (m v : GoString) (h : Handle)
    (hl : s.gauges.lookup (cacheKey s m v) = some h) :
    getOrRegisterPrometheusGauge target s m v = .ok (h, s) := by
  unfold cacheKey at hl
  simp only [getOrRegisterPrometheusGauge, hl]

theorem getOrRegister_of_accept (target : Registerer) (s : State) (m v : GoString)
    (hl : s.gauges.lookup (cacheKey s m v) = none)
    (hacc : target (registeredOpts s) (newGaugeOpts s m v) = true) :
    getOrRegisterPrometheusGauge target s m v =
      .ok (s.heap.length,
        { s with
          heap := s.heap ++ [{ opts := newGaugeOpts s m v, value := Float64.zero }]
          registered := s.registered ++ [s.heap.length]
          gauges := mapStore s.gauges (cacheKey s m v) s.heap.length }) := by
  unfold cacheKey at hl
  unfold newGaugeOpts at hacc
  simp only [getOrRegisterPrometheusGauge, hl, hacc, if_true, cacheKey, newGaugeOpts]

theorem getOrRegister_of_reject (target : Registerer) (s : State) (m v : GoString)
    (hl : s.gauges.lookup (cacheKey s m v) = none)
    (hrej : target (registeredOpts s) (newGaugeOpts s m v) = false) :
    getOrRegisterPrometheusGauge target s m v =
      .panicked
        { s with heap := s.heap ++ [{ opts := newGaugeOpts s m v, value := Float64.zero }] } := by
  unfold cacheKey at hl
  unfold newGaugeOpts at hrej
  simp only [getOrRegisterPrometheusGauge, hl, hrej, newGaugeOpts]
  simp

/-- C14: on a cache hit `getOrRegisterPrometheusGauge` returns the stored gauge
and leaves the whole state as it is: no gauge is created or registered and the
cache is unchanged. -/
theorem getOrRegisterPrometheusGauge_hit (target : Registerer) (s : State)
    (metricName valueName : GoString) (gauge : Handle)
    (hpresent : s.gauges.lookup (cacheKey s metricName valueName) = some gauge) :
    getOrRegisterPrometheusGauge target s metricName valueName = .ok (gauge, s) :=
  getOrRegister_of_hit target s metricName valueName gauge hpresent

/-- C14 (witness): the second lookup of ("mymeter", "count") after the export
of `meterSnapshot`. -/
theorem getOrRegisterPrometheusGauge_hit_witness :
    meterExported.gauges.lookup (cacheKey meterExported (utf8 "mymeter") (utf8 "count")) =
      some 0 ∧
    getOrRegisterPrometheusGauge freshNames meterExported (utf8 "mymeter") (utf8 "count") =
      .ok (0, meterExported) :=
  ⟨by decide,
    getOrRegisterPrometheusGauge_hit freshNames meterExported (utf8 "mymeter") (utf8 "count") 0
      (by decide)⟩

/-- C15: on a cache miss with an accepting target,
`getOrRegisterPrometheusGauge` creates one gauge with the namespace and
subsystem of the exporter and the composed name, registers it (and nothing
else), returns it, and stores it under the key, leaving the other cache
entries alone. -/
theorem getOrRegisterPrometheusGauge_miss (target : Registerer) (s : State)
    (metricName valueName : GoString)
    (habsent : s.gauges.lookup (cacheKey s metricName valueName) = none)
    (haccept : target (registeredOpts s)
      { Namespace := s.namespace_, Subsystem := s.subsystem,
        Name := PrometheusMetricName metricName valueName } = true) :
    ∃ gauge s1, getOrRegisterPrometheusGauge target s metricName valueName = .ok (gauge, s1) ∧
      s1.heap = s.heap ++
        [{ opts := { Namespace := s.namespace_, Subsystem := s.subsystem,
                     Name := PrometheusMetricName metricName valueName },
           value := Float64.zero }] ∧
      s1.heap[gauge]? =
        some { opts := { Namespace := s.namespace_, Subsystem := s.subsystem,
                         Name := PrometheusMetricName metricName valueName },
               value := Float64.zero } ∧
      s1.registered = s.registered ++ [gauge] ∧
      s1.gauges.lookup (cacheKey s metricName valueName) = some gauge ∧
      (∀ k, k ≠ cacheKey s metricName valueName → s1.gauges.lookup k = s.gauges.lookup k) ∧
      s1.namespace_ = s.namespace_ ∧ s1.subsystem = s.subsystem := by
  refine ⟨s.heap.length, _, getOrRegister_of_accept target s metricName valueName habsent haccept,
    rfl, ?_, rfl, ?_, ?_, rfl, rfl⟩
  · simp [newGaugeOpts]
  · exact lookup_mapStore_self _ _ _
  · intro k hk
    exact lookup_mapStore_ne _ _ _ _ hk

/-- C15 (witness): the first lookup of ("mycounter", "count") on a fresh
exporter. -/
theorem getOrRegisterPrometheusGauge_miss_witness :
    (NewExporter (utf8 "ns") (utf8 "subsys") [] []).gauges.lookup
      (cacheKey (NewExporter (utf8 "ns") (utf8 "subsys") [] [])
        (utf8 "mycounter") (utf8 "count")) = none ∧
    freshNames (registeredOpts (NewExporter (utf8 "ns") (utf8 "subsys") [] []))
      { Namespace := (NewExporter (utf8 "ns") (utf8 "subsys") [] []).namespace_,
        Subsystem := (NewExporter (utf8 "ns") (utf8 "subsys") [] []).subsystem,
        Name := PrometheusMetricName (utf8 "mycounter") (utf8 "count") } = true ∧
    ∃ gauge s1,
      getOrRegisterPrometheusGauge freshNames (NewExporter (utf8 "ns") (utf8 "subsys") [] [])
        (utf8 "mycounter") (utf8 "count") = .ok (gauge, s1) ∧
      s1.heap = (NewExporter (utf8 "ns") (utf8 "subsys") [] []).heap ++
        [{ opts := { Namespace := (NewExporter (utf8 "ns") (utf8 "subsys") [] []).namespace_,
                     Subsystem := (NewExporter (utf8 "ns") (utf8 "subsys") [] []).subsystem,
                     Name := PrometheusMetricName (utf8 "mycounter") (utf8 "count") },
           value := Float64.zero }] ∧
      s1.heap[gauge]? =
        some { opts := { Namespace := (NewExporter (utf8 "ns") (utf8 "subsys") [] []).namespace_,
                         Subsystem := (NewExporter (utf8 "ns") (utf8 "subsys") [] []).subsystem,
                         Name := PrometheusMetricName (utf8 "mycounter") (utf8 "count") },
               value := Float64.zero } ∧
      s1.registered = (NewExporter (utf8 "ns") (utf8 "subsys") [] []).registered ++ [gauge] ∧
      s1.gauges.lookup (cacheKey (NewExporter (utf8 "ns") (utf8 "subsys") [] [])
        (utf8 "mycounter") (utf8 "count")) = some gauge ∧
      (∀ k, k ≠ cacheKey (NewExporter (utf8 "ns") (utf8 "subsys") [] [])
          (utf8 "mycounter") (utf8 "count") →
        s1.gauges.lookup k = (NewExporter (utf8 "ns") (utf8 "subsys") [] []).gauges.lookup k) ∧
      s1.namespace_ = (NewExporter (utf8 "ns") (utf8 "subsys") [] []).namespace_ ∧
      s1.subsystem = (NewExporter (utf8 "ns") (utf8 "subsys") [] []).subsystem :=
  ⟨by decide, by decide,
    getOrRegisterPrometheusGauge_miss freshNames (NewExporter (utf8 "ns") (utf8 "subsys") [] [])
      (utf8 "mycounter") (utf8 "count") (by decide) (by decide)⟩

theorem getOrRegister_panicked_iff (target : Registerer) (s : State) (m v : GoString)
    (e : State) :
    getOrRegisterPrometheusGauge target s m v = .panicked e ↔
      s.gauges.lookup (cacheKey s m v) = none ∧
      target (registeredOpts s) (newGaugeOpts s m v) = false ∧
      e = { s with heap := s.heap ++ [{ opts := newGaugeOpts s m v, value := Float64.zero }] } := by
  cases hl : s.gauges.lookup (cacheKey s m v) with
  | some h =>
    rw [getOrRegister_of_hit target s m v h hl]
    simp
  | none =>
    cases hacc : target (registeredOpts s) (newGaugeOpts s m v) with
    | true =>
      rw [getOrRegister_of_accept target s m v hl hacc]
      simp
    | false =>
      rw [getOrRegister_of_reject target s m v hl hacc]
      simp only [Outcome.panicked.injEq, true_and]
      exact eq_comm

theorem exportTriple_panicked_iff (target : Registerer) (s : State)
    (t : GoString × GoString × Value) (e : State) :
    exportTriple target s t = .panicked e ↔
      getOrRegisterPrometheusGauge target s t.1 t.2.1 = .panicked e := by
  unfold exportTriple
  cases getOrRegisterPrometheusGauge target s t.1 t.2.1 with
  | ok r => simp
  | panicked e1 => simp

/-- A run panics exactly when, after some of the triples have gone through,
the lookup for the next one panics; the panic of the run is that panic. -/
theorem exportTriples_panicked_iff (target : Registerer)
    (l : List (GoString × GoString × Value)) (s e : State) :
    exportTriples target s l = .panicked e ↔
      ∃ pre t post s1, l = pre ++ t :: post ∧ exportTriples target s pre = .ok s1 ∧
        getOrRegisterPrometheusGauge target s1 t.1 t.2.1 = .panicked e := by
  induction l generalizing s with
  | nil =>
    constructor
    · intro h; cases h
    · rintro ⟨pre, t, post, s1, hl, _⟩
      exact absurd hl (by simp)
  | cons t rest ih =>
    constructor
    · intro h
      rw [exportTriples] at h
      cases hstep : exportTriple target s t with
      | panicked e1 =>
        rw [hstep] at h
        cases h
        exact ⟨[], t, rest, s, rfl, rfl, (exportTriple_panicked_iff target s t e).1 hstep⟩
      | ok s0 =>
        rw [hstep] at h
        obtain ⟨pre, t1, post, s1, hl, hpre, hp⟩ := (ih s0).1 h
        refine ⟨t :: pre, t1, post, s1, by rw [hl]; rfl, ?_, hp⟩
        rw [exportTriples, hstep]
        exact hpre
    · rintro ⟨pre, t1, post, s1, hl, hpre, hp⟩
      have hstep := (exportTriple_panicked_iff target s1 t1 e).2 hp
      rw [hl, exportTriples_append, hpre]
      simp only [exportTriples, hstep]

/-- C16: `getOrRegisterPrometheusGauge` panics exactly when the key of the pair
is absent from the cache and the target rejects the new gauge; the state at
the panic has the cache and the registrations of before, so no entry for that
key; and `ExportOnce` panics exactly when the lookup for one of its triples
panics, with that very panic. The last part is a concrete rejection. -/
theorem registration_failure_fatal_and_atomic :
    (∀ (target : Registerer) (s : State) (metricName valueName : GoString),
      (∃ e, getOrRegisterPrometheusGauge target s metricName valueName = .panicked e) ↔
        (s.gauges.lookup (cacheKey s metricName valueName) = none ∧
          target (registeredOpts s)
            { Namespace := s.namespace_, Subsystem := s.subsystem,
              Name := PrometheusMetricName metricName valueName } = false)) ∧
    (∀ (target : Registerer) (s e : State) (metricName valueName : GoString),
      getOrRegisterPrometheusGauge target s metricName valueName = .panicked e →
        e.gauges = s.gauges ∧ e.registered = s.registered ∧
        e.gauges.lookup (cacheKey s metricName valueName) = none) ∧
    (∀ (target : Registerer) (s e : State) (snap : Snapshot),
      ExportOnce target s snap = .panicked e ↔
        ∃ pre t post s1, triples snap = pre ++ t :: post ∧
          exportTriples target s pre = .ok s1 ∧
          getOrRegisterPrometheusGauge target s1 t.1 t.2.1 = .panicked e) ∧
    ExportOnce freshNames
        (NewExporter (utf8 "ns") (utf8 "subsys")
          [⟨⟨utf8 "ns", utf8 "subsys", utf8 "x_count"⟩, Float64.zero⟩] [0])
        [(utf8 "y", [(utf8 "count", Value.int64 2)]),
         (utf8 "x", [(utf8 "count", Value.int64 1)])] =
      .panicked
        { namespace_ := utf8 "ns"
          subsystem := utf8 "subsys"
          gauges := [(utf8 "ns_subsys_y_count_count", 1)]
          heap := [⟨⟨utf8 "ns", utf8 "subsys", utf8 "x_count"⟩, Float64.zero⟩,
                   ⟨⟨utf8 "ns", utf8 "subsys", utf8 "y_count"⟩, AsFloat64 (Value.int64 2)⟩,
                   ⟨⟨utf8 "ns", utf8 "subsys", utf8 "x_count"⟩, Float64.zero⟩]
          registered := [0, 1] } := by
  refine ⟨?_, ?_, ?_, by decide⟩
  · intro target s m v
    constructor
    · rintro ⟨e, he⟩
      obtain ⟨h1, h2, _⟩ := (getOrRegister_panicked_iff target s m v e).1 he
      exact ⟨h1, h2⟩
    · rintro ⟨h1, h2⟩
      exact ⟨_, getOrRegister_of_reject target s m v h1 h2⟩
  · intro target s e m v he
    obtain ⟨h1, _, rfl⟩ := (getOrRegister_panicked_iff target s m v e).1 he
    exact ⟨rfl, rfl, h1⟩
  · intro target s e snap
    rw [ExportOnce_eq_exportTriples]
    exact exportTriples_panicked_iff target (triples snap) s e

/-! ## The cache only grows -/

theorem getOrRegister_keeps (target : Registerer) (s : State) (m v : GoString)
    (k : GoString) (h : Handle) (hk : s.gauges.lookup k = some h) :
    (afterCall (getOrRegisterPrometheusGauge target s m v)).gauges.lookup k = some h := by
  cases hl : s.gauges.lookup (cacheKey s m v) with
  | some h0 =>
    rw [getOrRegister_of_hit target s m v h0 hl]
    exact hk
  | none =>
    cases hacc : target (registeredOpts s) (newGaugeOpts s m v) with
    | true =>
      rw [getOrRegister_of_accept target s m v hl hacc]
      have hne : k ≠ cacheKey s m v := by
        intro e
        rw [e, hl] at hk
        exact absurd hk (by simp)
      simp only [afterCall]
      rw [lookup_mapStore_ne _ _ _ _ hne]
      exact hk
    | false =>
      rw [getOrRegister_of_reject target s m v hl hacc]
      exact hk

theorem exportTriple_endState (target : Registerer) (s : State)
    (t : GoString × GoString × Value) :
    (endState (exportTriple target s t)).gauges =
      (afterCall (getOrRegisterPrometheusGauge target s t.1 t.2.1)).gauges := by
  unfold exportTriple
  cases getOrRegisterPrometheusGauge target s t.1 t.2.1 with
  | ok r =>
    obtain ⟨g, s1⟩ := r
    simp only [endState, afterCall, gaugeSet_gauges]
  | panicked e => rfl

theorem exportTriples_keeps (target : Registerer) (l : List (GoString × GoString × Value))
    (s : State) (k : GoString) (h : Handle) (hk : s.gauges.lookup k = some h) :
    (endState (exportTriples target s l)).gauges.lookup k = some h := by
  induction l generalizing s with
  | nil => exact hk
  | cons t rest ih =>
    have hstep : (endState (exportTriple target s t)).gauges.lookup k = some h := by
      rw [exportTriple_endState]
      exact getOrRegister_keeps target s t.1 t.2.1 k h hk
    rw [exportTriples]
    cases hs : exportTriple target s t with
    | ok s0 =>
      rw [hs] at hstep
      exact ih s0 hstep
    | panicked e =>
      rw [hs] at hstep
      exact hstep

/-- C17: the cache only grows: an entry that is in the cache before a call of
`getOrRegisterPrometheusGauge` or of `ExportOnce` is in it afterwards, with the
same gauge, whether the call returns or panics. -/
theorem cache_only_grows (target : Registerer) (s : State) (key : GoString) (gauge : Handle)
    (hbefore : s.gauges.lookup key = some gauge) :
    (∀ metricName valueName : GoString,
      (afterCall (getOrRegisterPrometheusGauge target s metricName valueName)).gauges.lookup key =
        some gauge) ∧
    (∀ snap : Snapshot, (endState (ExportOnce target s snap)).gauges.lookup key = some gauge) := by
  refine ⟨fun m v => getOrRegister_keeps target s m v key gauge hbefore, ?_⟩
  intro snap
  rw [ExportOnce_eq_exportTriples]
  exact exportTriples_keeps target _ s key gauge hbefore

/-- C17 (witness): the entry for ("mymeter", "count") in the state after the
export of `meterSnapshot`. -/
theorem cache_only_grows_witness :
    meterExported.gauges.lookup (utf8 "ns_subsys_mymeter_count_count") = some 0 ∧
    (∀ metricName valueName : GoString,
      (afterCall (getOrRegisterPrometheusGauge freshNames meterExported
        metricName valueName)).gauges.lookup (utf8 "ns_subsys_mymeter_count_count") = some 0) ∧
    (∀ snap : Snapshot,
      (endState (ExportOnce freshNames meterExported snap)).gauges.lookup
        (utf8 "ns_subsys_mymeter_count_count") = some 0) :=
  ⟨by decide,
    cache_only_grows freshNames meterExported (utf8 "ns_subsys_mymeter_count_count") 0
      (by decide)⟩

/-! ## Namespace and subsystem of every gauge -/

/-- The state after one iteration, in each of its three cases. -/
theorem exportTriple_endState_cases (target : Registerer) (s : State)
    (t : GoString × GoString × Value) :
    (∃ h, s.gauges.lookup (cacheKey s t.1 t.2.1) = some h ∧
      exportTriple target s t = .ok (gaugeSet s h (AsFloat64 t.2.2))) ∨
    (s.gauges.lookup (cacheKey s t.1 t.2.1) = none ∧
      target (registeredOpts s) (newGaugeOpts s t.1 t.2.1) = true ∧
      exportTriple target s t = .ok (gaugeSet
        { s with
          heap := s.heap ++ [{ opts := newGaugeOpts s t.1 t.2.1, value := Float64.zero }]
          registered := s.registered ++ [s.heap.length]
          gauges := mapStore s.gauges (cacheKey s t.1 t.2.1) s.heap.length }
        s.heap.length (AsFloat64 t.2.2))) ∨
    (s.gauges.lookup (cacheKey s t.1 t.2.1) = none ∧
      target (registeredOpts s) (newGaugeOpts s t.1 t.2.1) = false ∧
      exportTriple target s t = .panicked
        { s with
          heap := s.heap ++ [{ opts := newGaugeOpts s t.1 t.2.1, value := Float64.zero }] }) := by
  cases hl : s.gauges.lookup (cacheKey s t.1 t.2.1) with
  | some h =>
    left
    exact ⟨h, rfl, exportTriple_hit target s t h hl⟩
  | none =>
    right
    cases hacc : target (registeredOpts s) (newGaugeOpts s t.1 t.2.1) with
    | true =>
      left
      refine ⟨rfl, rfl, ?_⟩
      unfold exportTriple
      rw [getOrRegister_of_accept target s t.1 t.2.1 hl hacc]
    | false =>
      right
      refine ⟨rfl, rfl, ?_⟩
      unfold exportTriple
      rw [getOrRegister_of_reject target s t.1 t.2.1 hl hacc]

/-- A property kept by every iteration, returning or panicking, is kept by
the whole run. -/
theorem exportTriples_endState_induct (target : Registerer) (P : State → Prop)
    (hP : ∀ s t, P s → P (endState (exportTriple target s t)))
    (l : List (GoString × GoString × Value)) (s : State) (hs : P s) :
    P (endState (exportTriples target s l)) := by
  induction l generalizing s with
  | nil => exact hs
  | cons t rest ih =>
    have hstep := hP s t hs
    rw [exportTriples]
    cases hcase : exportTriple target s t with
    | ok s0 =>
      rw [hcase] at hstep
      exact ih s0 hstep
    | panicked e =>
      rw [hcase] at hstep
      exact hstep

theorem Prefixed_gaugeSet (ns sub : GoString) (registered : List Handle) (s : State)
    (h : Handle) (v : Float64) (hs : Prefixed ns sub registered s) :
    Prefixed ns sub registered (gaugeSet s h v) := by
  obtain ⟨hn, hsub, ⟨new, hreg, hnew⟩, hkeys⟩ := hs
  refine ⟨by rw [gaugeSet_namespace]; exact hn, by rw [gaugeSet_subsystem]; exact hsub,
    ⟨new, by rw [gaugeSet_registered]; exact hreg, ?_⟩, by rw [gaugeSet_gauges]; exact hkeys⟩
  intro h1 hh1
  rw [gaugeSet_heap_opts]
  exact hnew h1 hh1

theorem Prefixed_alloc (ns sub : GoString) (registered : List Handle) (s : State)
    (g : Gauge) (hs : Prefixed ns sub registered s) :
    Prefixed ns sub registered { s with heap := s.heap ++ [g] } := by
  obtain ⟨hn, hsub, ⟨new, hreg, hnew⟩, hkeys⟩ := hs
  refine ⟨hn, hsub, ⟨new, hreg, ?_⟩, hkeys⟩
  intro h1 hh1
  obtain ⟨o, ho, hon, hos⟩ := hnew h1 hh1
  refine ⟨o, ?_, hon, hos⟩
  have hlt : h1 < s.heap.length := by
    by_contra hc
    rw [List.getElem?_eq_none (Nat.le_of_not_lt hc)] at ho
    simp at ho
  simp only []
  rw [List.getElem?_append_left hlt]
  exact ho

theorem Prefixed_step (target : Registerer) (ns sub : GoString) (registered : List Handle)
    (s : State) (t : GoString × GoString × Value) (hs : Prefixed ns sub registered s) :
    Prefixed ns sub registered (endState (exportTriple target s t)) := by
  rcases exportTriple_endState_cases target s t with ⟨h, _, hr⟩ | ⟨_, _, hr⟩ | ⟨_, _, hr⟩
  · rw [hr]
    exact Prefixed_gaugeSet ns sub registered s h _ hs
  · rw [hr]
    apply Prefixed_gaugeSet
    have hbase := Prefixed_alloc ns sub registered s
      { opts := newGaugeOpts s t.1 t.2.1, value := Float64.zero } hs
    obtain ⟨hn, hsub, ⟨new, hreg, hnew⟩, hkeys⟩ := hbase
    refine ⟨hn, hsub, ⟨new ++ [s.heap.length], ?_, ?_⟩, ?_⟩
    · simp only [] at hreg ⊢
      rw [hreg, List.append_assoc]
    · intro h1 hh1
      rcases List.mem_append.1 hh1 with hh1 | hh1
      · exact hnew h1 hh1
      · rw [List.mem_singleton] at hh1
        subst hh1
        refine ⟨newGaugeOpts s t.1 t.2.1, ?_, hn, hsub⟩
        simp
    · intro p hp
      simp only [mapStore, List.mem_cons] at hp
      rcases hp with rfl | hp
      · refine ⟨PrometheusMetricName (PrometheusMetricName t.1 t.2.1) t.2.1, ?_⟩
        simp only [] at hn hsub
        simp only [cacheKey, PrometheusMetricKey, sprintf3, hn, hsub]
        rfl
      · exact hkeys p (List.mem_of_mem_filter hp)
  · rw [hr]
    exact Prefixed_alloc ns sub registered s _ hs

theorem Prefixed_reachable (target : Registerer) (namespace_ subsystem : GoString)
    (heap : List Gauge) (registered : List Handle) (s : State)
    (hreach : Reachable target (NewExporter namespace_ subsystem heap registered) s) :
    Prefixed (ReplaceUnsafeKeyCharacters namespace_) (ReplaceUnsafeKeyCharacters subsystem)
      registered s := by
  induction hreach with
  | start =>
    refine ⟨rfl, rfl, ⟨[], by simp [NewExporter], ?_⟩, ?_⟩
    · intro h hh; cases hh
    · intro p hp; cases hp
  | call s1 snap _ ih =>
    rw [ExportOnce_eq_exportTriples]
    exact exportTriples_endState_induct target _
      (fun s2 t h2 => Prefixed_step target _ _ registered s2 t h2) _ s1 ih

/-- C18: whatever the namespace and subsystem arguments of `NewExporter`, in
every state the exporter reaches its namespace and subsystem are the sanitised
arguments, every gauge it has registered carries them as `Namespace` and
`Subsystem`, and every cache key starts with the sanitised namespace, an
underscore, the sanitised subsystem and an underscore. -/
theorem NewExporter_sanitizes_once (target : Registerer) (namespace_ subsystem : GoString)
    (heap : List Gauge) (registered : List Handle) (s : State)
    (hreach : Reachable target (NewExporter namespace_ subsystem heap registered) s) :
    s.namespace_ = ReplaceUnsafeKeyCharacters namespace_ ∧
    s.subsystem = ReplaceUnsafeKeyCharacters subsystem ∧
    (∃ new, s.registered = registered ++ new ∧
      ∀ h ∈ new, ∃ g, s.heap[h]? = some g ∧
        g.opts.Namespace = ReplaceUnsafeKeyCharacters namespace_ ∧
        g.opts.Subsystem = ReplaceUnsafeKeyCharacters subsystem) ∧
    ∀ p ∈ s.gauges, ∃ rest,
      p.1 = ReplaceUnsafeKeyCharacters namespace_ ++ utf8 "_" ++
        ReplaceUnsafeKeyCharacters subsystem ++ utf8 "_" ++ rest := by
  obtain ⟨hn, hsub, ⟨new, hreg, hnew⟩, hkeys⟩ :=
    Prefixed_reachable target namespace_ subsystem heap registered s hreach
  refine ⟨hn, hsub, ⟨new, hreg, ?_⟩, hkeys⟩
  intro h hh
  obtain ⟨o, ho, hon, hos⟩ := hnew h hh
  obtain ⟨g, hg, rfl⟩ := Option.map_eq_some'.1 ho
  exact ⟨g, hg, hon, hos⟩

theorem unnamedExported_reachable :
    Reachable freshNames (NewExporter (utf8 "") (utf8 "") [] []) unnamedExported := by
  have e : endState (ExportOnce freshNames (NewExporter (utf8 "") (utf8 "") [] [])
      [(utf8 "mycounter", [(utf8 "count", Value.int64 1)])]) = unnamedExported := by
    decide
  rw [← e]
  exact Reachable.call _ _ Reachable.start

/-- C18 (witness): an exporter made with empty namespace and subsystem, after
one `ExportOnce`; both have become "unnamed". -/
theorem NewExporter_sanitizes_once_witness :
    Reachable freshNames (NewExporter (utf8 "") (utf8 "") [] []) unnamedExported ∧
    (unnamedExported.namespace_ = ReplaceUnsafeKeyCharacters (utf8 "") ∧
      unnamedExported.subsystem = ReplaceUnsafeKeyCharacters (utf8 "") ∧
      (∃ new, unnamedExported.registered = [] ++ new ∧
        ∀ h ∈ new, ∃ g, unnamedExported.heap[h]? = some g ∧
          g.opts.Namespace = ReplaceUnsafeKeyCharacters (utf8 "") ∧
          g.opts.Subsystem = ReplaceUnsafeKeyCharacters (utf8 "")) ∧
      ∀ p ∈ unnamedExported.gauges, ∃ rest,
        p.1 = ReplaceUnsafeKeyCharacters (utf8 "") ++ utf8 "_" ++
          ReplaceUnsafeKeyCharacters (utf8 "") ++ utf8 "_" ++ rest) ∧
    ReplaceUnsafeKeyCharacters (utf8 "") = utf8 "unnamed" :=
  ⟨unnamedExported_reachable,
    NewExporter_sanitizes_once freshNames (utf8 "") (utf8 "") [] [] unnamedExported
      unnamedExported_reachable,
    by decide⟩

/-! ## Iteration order -/

theorem mem_registeredOpts (s : State) (o : GaugeOpts) :
    o ∈ registeredOpts s ↔ ∃ h ∈ s.registered, (s.heap[h]?).map Gauge.opts = some o := by
  unfold registeredOpts
  rw [List.mem_filterMap]

theorem registeredOpts_gaugeSet (s : State) (h : Handle) (v : Float64) (o : GaugeOpts) :
    o ∈ registeredOpts (gaugeSet s h v) ↔ o ∈ registeredOpts s := by
  rw [mem_registeredOpts, mem_registeredOpts, gaugeSet_registered]
  constructor
  · rintro ⟨h1, hh1, ho⟩
    rw [gaugeSet_heap_opts] at ho
    exact ⟨h1, hh1, ho⟩
  · rintro ⟨h1, hh1, ho⟩
    refine ⟨h1, hh1, ?_⟩
    rw [gaugeSet_heap_opts]
    exact ho

theorem registeredOpts_register (s : State) (g : Gauge) (m : List (GoString × Handle))
    (o : GaugeOpts) :
    o ∈ registeredOpts
        { s with heap := s.heap ++ [g], registered := s.registered ++ [s.heap.length],
                 gauges := m } ↔
      o ∈ registeredOpts s ∨ o = g.opts := by
  rw [mem_registeredOpts, mem_registeredOpts]
  simp only [List.mem_append, List.mem_singleton]
  constructor
  · rintro ⟨h1, hh1, ho⟩
    rcases Nat.lt_trichotomy h1 s.heap.length with hlt | heq | hgt
    · rw [List.getElem?_append_left hlt] at ho
      rcases hh1 with hh1 | hh1
      · exact Or.inl ⟨h1, hh1, ho⟩
      · exact absurd hh1 (Nat.ne_of_lt hlt)
    · subst heq
      right
      simp at ho
      exact ho.symm
    · rw [List.getElem?_eq_none (by simp; omega)] at ho
      simp at ho
  · rintro (⟨h1, hh1, ho⟩ | rfl)
    · refine ⟨h1, Or.inl hh1, ?_⟩
      have hlt : h1 < s.heap.length := by
        by_contra hc
        rw [List.getElem?_eq_none (Nat.le_of_not_lt hc)] at ho
        simp at ho
      rw [List.getElem?_append_left hlt]
      exact ho
    · exact ⟨s.heap.length, Or.inr rfl, by simp⟩

/-- What a returning iteration does to the rest of the state: other cache
entries, the options of the gauges there were, the options of the gauge of
the triple, where new handles lie, and the registered options. -/
theorem exportTriple_effects (target : Registerer) (s s0 : State)
    (t : GoString × GoString × Value) (h : exportTriple target s t = .ok s0) :
    (∀ k, k ≠ cacheKey s t.1 t.2.1 → s0.gauges.lookup k = s.gauges.lookup k) ∧
    s.heap.length ≤ s0.heap.length ∧
    (∀ i : Nat, i < s.heap.length →
      (s0.heap[i]?).map Gauge.opts = (s.heap[i]?).map Gauge.opts) ∧
    (∀ ht, s0.gauges.lookup (cacheKey s t.1 t.2.1) = some ht →
      (s0.heap[ht]?).map Gauge.opts = gaugeOptsFor s t.1 t.2.1) ∧
    (∀ k h0, s0.gauges.lookup k = some h0 →
      s.gauges.lookup k = some h0 ∨ s.heap.length ≤ h0) ∧
    (∀ o, o ∈ registeredOpts s0 ↔
      o ∈ registeredOpts s ∨
        (s.gauges.lookup (cacheKey s t.1 t.2.1) = none ∧ o = newGaugeOpts s t.1 t.2.1)) := by
  rcases exportTriple_cases target s s0 t h with ⟨h0, hl, rfl⟩ | ⟨hl, rfl⟩
  · refine ⟨?_, ?_, ?_, ?_, ?_, ?_⟩
    · intro k _
      rw [gaugeSet_gauges]
    · rw [gaugeSet_heap_length]
    · intro i _
      exact gaugeSet_heap_opts _ _ _ _
    · intro ht hht
      rw [gaugeSet_gauges, hl] at hht
      cases hht
      rw [gaugeSet_heap_opts, gaugeOptsFor, hl]
    · intro k h1 hk
      rw [gaugeSet_gauges] at hk
      exact Or.inl hk
    · intro o
      rw [registeredOpts_gaugeSet, hl]
      simp
  · refine ⟨?_, ?_, ?_, ?_, ?_, ?_⟩
    · intro k hk
      rw [gaugeSet_gauges]
      exact lookup_mapStore_ne _ _ _ _ hk
    · rw [gaugeSet_heap_length]
      simp
    · intro i hi
      rw [gaugeSet_heap_opts]
      simp only []
      rw [List.getElem?_append_left hi]
    · intro ht hht
      rw [gaugeSet_gauges] at hht
      simp only [] at hht
      rw [lookup_mapStore_self] at hht
      cases hht
      rw [gaugeSet_heap_opts, gaugeOptsFor, hl]
      simp [newGaugeOpts]
    · intro k h1 hk
      rw [gaugeSet_gauges] at hk
      simp only [] at hk
      by_cases hkk : k = cacheKey s t.1 t.2.1
      · subst hkk
        rw [lookup_mapStore_self] at hk
        cases hk
        exact Or.inr (Nat.le_refl _)
      · rw [lookup_mapStore_ne _ _ _ _ hkk] at hk
        exact Or.inl hk
    · intro o
      rw [registeredOpts_gaugeSet, registeredOpts_register]
      simp [hl, newGaugeOpts]

theorem newGaugeOpts_congr (s u : State) (hn : u.namespace_ = s.namespace_)
    (hs : u.subsystem = s.subsystem) (m v : GoString) :
    newGaugeOpts u m v = newGaugeOpts s m v := by
  unfold newGaugeOpts; rw [hn, hs]

/-- A returning run leaves alone the cache entries of other keys and the
options of the gauges there were, and every handle it adds is a new one. -/
theorem exportTriples_effects (target : Registerer) (l : List (GoString × GoString × Value))
    (s s1 : State) (h : exportTriples target s l = .ok s1) :
    (∀ k, k ∉ l.map (fun t => cacheKey s t.1 t.2.1) →
      s1.gauges.lookup k = s.gauges.lookup k) ∧
    s.heap.length ≤ s1.heap.length ∧
    (∀ i : Nat, i < s.heap.length →
      (s1.heap[i]?).map Gauge.opts = (s.heap[i]?).map Gauge.opts) ∧
    (∀ k h0, s1.gauges.lookup k = some h0 →
      s.gauges.lookup k = some h0 ∨ s.heap.length ≤ h0) := by
  induction l generalizing s with
  | nil =>
    cases h
    exact ⟨fun _ _ => rfl, Nat.le_refl _, fun _ _ => rfl, fun _ _ hk => Or.inl hk⟩
  | cons t rest ih =>
    obtain ⟨s0, hstep, hrest⟩ := exportTriples_cons target s s1 t rest h
    obtain ⟨hn, hs, _, _⟩ := exportTriple_ok target s s0 t hstep
    obtain ⟨ha, hb, hc, _, he, _⟩ := exportTriple_effects target s s0 t hstep
    obtain ⟨ia, ib, ic, ie⟩ := ih s0 hrest
    have hfun : (fun t : GoString × GoString × Value => cacheKey s0 t.1 t.2.1) =
        (fun t => cacheKey s t.1 t.2.1) := by
      funext t1; exact cacheKey_congr s s0 hn hs _ _
    rw [hfun] at ia
    refine ⟨?_, Nat.le_trans hb ib, ?_, ?_⟩
    · intro k hk
      rw [List.map_cons, List.mem_cons, not_or] at hk
      rw [ia k hk.2, ha k hk.1]
    · intro i hi
      rw [ic i (Nat.lt_of_lt_of_le hi hb), hc i hi]
    · intro k h0 hk
      rcases ie k h0 hk with hk0 | hge
      · rcases he k h0 hk0 with hks | hge
        · exact Or.inl hks
        · exact Or.inr hge
      · exact Or.inr (Nat.le_trans hb hge)

theorem gaugeOptsFor_step (target : Registerer) (s s0 : State)
    (t t1 : GoString × GoString × Value) (h : exportTriple target s t = .ok s0)
    (hwf : WellFormed s) (hne : cacheKey s t1.1 t1.2.1 ≠ cacheKey s t.1 t.2.1) :
    gaugeOptsFor s0 t1.1 t1.2.1 = gaugeOptsFor s t1.1 t1.2.1 := by
  obtain ⟨hn, hs, _, _⟩ := exportTriple_ok target s s0 t h
  obtain ⟨ha, _, hc, _, _, _⟩ := exportTriple_effects target s s0 t h
  unfold gaugeOptsFor
  rw [cacheKey_congr s s0 hn hs, ha _ hne, newGaugeOpts_congr s s0 hn hs]
  cases hl : s.gauges.lookup (cacheKey s t1.1 t1.2.1) with
  | none => rfl
  | some h0 =>
    simp only []
    exact hc h0 (hwf.2 _ (lookup_mem _ _ _ hl))

/-- From a well-formed state, after a returning run over triples with
pairwise distinct cache keys, the gauge of every triple has the options that
the lookup from the first state gives it. -/
theorem exportTriples_gauge_opts (target : Registerer)
    (l : List (GoString × GoString × Value)) (s s1 : State)
    (h : exportTriples target s l = .ok s1) (hwf : WellFormed s)
    (hnd : (l.map (fun t => cacheKey s t.1 t.2.1)).Nodup) :
    ∀ t ∈ l, ∀ ht, s1.gauges.lookup (cacheKey s1 t.1 t.2.1) = some ht →
      (s1.heap[ht]?).map Gauge.opts = gaugeOptsFor s t.1 t.2.1 := by
  induction l generalizing s with
  | nil => intro t ht; cases ht
  | cons t rest ih =>
    obtain ⟨s0, hstep, hrest⟩ := exportTriples_cons target s s1 t rest h
    obtain ⟨hn, hs, _, ht0, hlook, _, _⟩ := exportTriple_ok target s s0 t hstep
    obtain ⟨_, _, _, hd, _, _⟩ := exportTriple_effects target s s0 t hstep
    obtain ⟨hn1, hs1, hm1⟩ := exportTriples_mono target rest s0 s1 hrest
    obtain ⟨_, _, ic, _⟩ := exportTriples_effects target rest s0 s1 hrest
    have hwf0 := exportTriple_wf target s s0 t hstep hwf
    rw [List.map_cons, List.nodup_cons] at hnd
    have hfun : (fun t : GoString × GoString × Value => cacheKey s0 t.1 t.2.1) =
        (fun t => cacheKey s t.1 t.2.1) := by
      funext t1; exact cacheKey_congr s s0 hn hs _ _
    have hnd0 : (rest.map (fun t => cacheKey s0 t.1 t.2.1)).Nodup := by
      rw [hfun]; exact hnd.2
    intro t1 hmem ht hht
    rcases List.mem_cons.1 hmem with rfl | hmem
    · rw [cacheKey_congr s s1 (hn1.trans hn) (hs1.trans hs)] at hht
      have hsame := hm1 _ _ hlook
      have e : ht = ht0 := Option.some.inj (hht.symm.trans hsame)
      subst e
      rw [ic ht (hwf0.2 _ (lookup_mem _ _ _ hlook))]
      exact hd ht hlook
    · rw [ih s0 hrest hwf0 hnd0 t1 hmem ht hht]
      apply gaugeOptsFor_step target s s0 t t1 hstep hwf
      intro e
      apply hnd.1
      rw [← e]
      exact List.mem_map.2 ⟨t1, hmem, rfl⟩

/-- After a returning run over triples with pairwise distinct cache keys the
registered options are those of before and those of the new gauges of the
triples that missed the cache. -/
theorem exportTriples_registeredOpts (target : Registerer)
    (l : List (GoString × GoString × Value)) (s s1 : State)
    (h : exportTriples target s l = .ok s1)
    (hnd : (l.map (fun t => cacheKey s t.1 t.2.1)).Nodup) (o : GaugeOpts) :
    o ∈ registeredOpts s1 ↔
      o ∈ registeredOpts s ∨
        ∃ t ∈ l, s.gauges.lookup (cacheKey s t.1 t.2.1) = none ∧
          o = newGaugeOpts s t.1 t.2.1 := by
  induction l generalizing s with
  | nil =>
    cases h
    simp
  | cons t rest ih =>
    obtain ⟨s0, hstep, hrest⟩ := exportTriples_cons target s s1 t rest h
    obtain ⟨hn, hs, _, _⟩ := exportTriple_ok target s s0 t hstep
    obtain ⟨ha, _, _, _, _, hf⟩ := exportTriple_effects target s s0 t hstep
    rw [List.map_cons, List.nodup_cons] at hnd
    have hfun : (fun t : GoString × GoString × Value => cacheKey s0 t.1 t.2.1) =
        (fun t => cacheKey s t.1 t.2.1) := by
      funext t1; exact cacheKey_congr s s0 hn hs _ _
    have hnd0 : (rest.map (fun t => cacheKey s0 t.1 t.2.1)).Nodup := by
      rw [hfun]; exact hnd.2
    have hrestiff : (∃ t1 ∈ rest, s0.gauges.lookup (cacheKey s0 t1.1 t1.2.1) = none ∧
          o = newGaugeOpts s0 t1.1 t1.2.1) ↔
        (∃ t1 ∈ rest, s.gauges.lookup (cacheKey s t1.1 t1.2.1) = none ∧
          o = newGaugeOpts s t1.1 t1.2.1) := by
      have hne : ∀ t1 ∈ rest, cacheKey s t1.1 t1.2.1 ≠ cacheKey s t.1 t.2.1 := by
        intro t1 hmem e
        apply hnd.1
        rw [← e]
        exact List.mem_map.2 ⟨t1, hmem, rfl⟩
      constructor
      · rintro ⟨t1, hmem, hl, ho⟩
        refine ⟨t1, hmem, ?_, ?_⟩
        · rw [cacheKey_congr s s0 hn hs, ha _ (hne t1 hmem)] at hl
          exact hl
        · rw [newGaugeOpts_congr s s0 hn hs] at ho
          exact ho
      · rintro ⟨t1, hmem, hl, ho⟩
        refine ⟨t1, hmem, ?_, ?_⟩
        · rw [cacheKey_congr s s0 hn hs, ha _ (hne t1 hmem)]
          exact hl
        · rw [newGaugeOpts_congr s s0 hn hs]
          exact ho
    rw [ih s0 hrest hnd0, hrestiff, hf o]
    constructor
    · rintro ((h1 | h2) | ⟨t1, hm, h3⟩)
      · exact Or.inl h1
      · exact Or.inr ⟨t, List.mem_cons_self _ _, h2⟩
      · exact Or.inr ⟨t1, List.mem_cons_of_mem _ hm, h3⟩
    · rintro (h1 | ⟨t1, hm, h3⟩)
      · exact Or.inl (Or.inl h1)
      · rcases List.mem_cons.1 hm with rfl | hm
        · exact Or.inl (Or.inr h3)
        · exact Or.inr ⟨t1, hm, h3⟩

/-- After a returning run from a well-formed state over triples with pairwise
distinct cache keys: the gauge under the key of a triple has the coerced value
of the triple and the options that the lookup from the first state gives. -/
theorem run_gauge_of_key (target : Registerer) (l : List (GoString × GoString × Value))
    (s s1 : State) (h : exportTriples target s l = .ok s1) (hwf : WellFormed s)
    (hnd : (l.map (fun t => cacheKey s t.1 t.2.1)).Nodup)
    (t : GoString × GoString × Value) (ht : t ∈ l) :
    ∃ h1 g, s1.gauges.lookup (cacheKey s t.1 t.2.1) = some h1 ∧ s1.heap[h1]? = some g ∧
      g.value = AsFloat64 t.2.2 ∧ some g.opts = gaugeOptsFor s t.1 t.2.1 := by
  obtain ⟨hn, hs, _⟩ := exportTriples_mono target l s s1 h
  obtain ⟨_, hall⟩ := exportTriples_settled target l s s1 h hwf hnd
  obtain ⟨h1, g, hl, hg, hv⟩ := hall t ht
  have ho := exportTriples_gauge_opts target l s s1 h hwf hnd t ht h1 hl
  rw [cacheKey_congr s s1 hn hs] at hl
  refine ⟨h1, g, hl, hg, hv, ?_⟩
  rw [← ho, hg]
  rfl

/-- After a returning run from a well-formed state: a key that belongs to none
of the triples has the entry it had, and its gauge is untouched. -/
theorem run_gauge_other (target : Registerer) (l : List (GoString × GoString × Value))
    (s s1 : State) (h : exportTriples target s l = .ok s1) (hwf : WellFormed s)
    (k : GoString) (hk : k ∉ l.map (fun t => cacheKey s t.1 t.2.1)) (h1 : Handle)
    (hl : s1.gauges.lookup k = some h1) :
    s.gauges.lookup k = some h1 ∧ s1.heap[h1]? = s.heap[h1]? ∧ h1 < s.heap.length := by
  obtain ⟨hn, hs, _⟩ := exportTriples_mono target l s s1 h
  obtain ⟨ha, _, _, _⟩ := exportTriples_effects target l s s1 h
  have hwf1 := exportTriples_wf target l s s1 h hwf
  have hls : s.gauges.lookup k = some h1 := by rw [← ha k hk]; exact hl
  refine ⟨hls, ?_, hwf.2 _ (lookup_mem _ _ _ hls)⟩
  apply exportTriples_frame target l s s1 h
  intro hin
  obtain ⟨t, ht, hlt⟩ := List.mem_filterMap.1 hin
  have e := lookup_inj s1.gauges hwf1.1 _ _ h1 hlt hl
  apply hk
  rw [← e, cacheKey_congr s s1 hn hs]
  exact List.mem_map.2 ⟨t, ht, rfl⟩

/-- A gauge that existed before a returning run and that the run sets is the
gauge of a triple whose key was in the cache. -/
theorem run_touched_old (target : Registerer) (l : List (GoString × GoString × Value))
    (s s1 : State) (h : exportTriples target s l = .ok s1) (i : Nat)
    (hi : i < s.heap.length) (hin : i ∈ touched s1 l) :
    ∃ t ∈ l, s.gauges.lookup (cacheKey s t.1 t.2.1) = some i := by
  obtain ⟨hn, hs, _⟩ := exportTriples_mono target l s s1 h
  obtain ⟨_, _, _, hc⟩ := exportTriples_effects target l s s1 h
  obtain ⟨t, ht, hlt⟩ := List.mem_filterMap.1 hin
  refine ⟨t, ht, ?_⟩
  rw [cacheKey_congr s s1 hn hs] at hlt
  rcases hc _ _ hlt with hold | hge
  · exact hold
  · exact absurd hi (Nat.not_lt_of_le hge)

theorem Gauge.eq_of_opts_value (g1 g2 : Gauge) (ho : g1.opts = g2.opts)
    (hv : g1.value = g2.value) : g1 = g2 := by
  cases g1; cases g2
  simp only [Gauge.mk.injEq]
  exact ⟨ho, hv⟩

/-- Two returning runs from one well-formed state over the same triples, of
pairwise distinct cache keys, in two orders: the results have the same keys in
the cache, the same registered options, under every key a gauge of the same
options and value, and every gauge that existed before in the same state. -/
theorem exportTriples_order (target : Registerer)
    (l l2 : List (GoString × GoString × Value)) (s s1 s2 : State) (hwf : WellFormed s)
    (hperm : l2.Perm l) (hnd : (l.map (fun t => cacheKey s t.1 t.2.1)).Nodup)
    (h1 : exportTriples target s l = .ok s1) (h2 : exportTriples target s l2 = .ok s2) :
    (∀ k, (s1.gauges.lookup k).isSome = (s2.gauges.lookup k).isSome) ∧
    (∀ o, o ∈ registeredOpts s1 ↔ o ∈ registeredOpts s2) ∧
    (∀ k g1 g2, s1.gauges.lookup k = some g1 → s2.gauges.lookup k = some g2 →
      ∃ g, s1.heap[g1]? = some g ∧ s2.heap[g2]? = some g) ∧
    (∀ i : Nat, i < s.heap.length → s1.heap[i]? = s2.heap[i]?) := by
  have hnd2 : (l2.map (fun t => cacheKey s t.1 t.2.1)).Nodup :=
    (List.Perm.nodup_iff (List.Perm.map _ hperm)).2 hnd
  have hmem : ∀ t, t ∈ l2 ↔ t ∈ l := fun t => List.Perm.mem_iff hperm
  have hkmem : ∀ k, k ∈ l2.map (fun t => cacheKey s t.1 t.2.1) ↔
      k ∈ l.map (fun t => cacheKey s t.1 t.2.1) :=
    fun k => List.Perm.mem_iff (List.Perm.map _ hperm)
  have hpair : ∀ t ∈ l, ∃ a b g, s1.gauges.lookup (cacheKey s t.1 t.2.1) = some a ∧
      s2.gauges.lookup (cacheKey s t.1 t.2.1) = some b ∧
      s1.heap[a]? = some g ∧ s2.heap[b]? = some g := by
    intro t ht
    obtain ⟨a, ga, hla, hga, hva, hoa⟩ := run_gauge_of_key target l s s1 h1 hwf hnd t ht
    obtain ⟨b, gb, hlb, hgb, hvb, hob⟩ :=
      run_gauge_of_key target l2 s s2 h2 hwf hnd2 t ((hmem t).2 ht)
    have hopts : ga.opts = gb.opts := Option.some.inj (hoa.trans hob.symm)
    have hg : ga = gb := Gauge.eq_of_opts_value ga gb hopts (hva.trans hvb.symm)
    exact ⟨a, b, ga, hla, hlb, hga, hg ▸ hgb⟩
  refine ⟨?_, ?_, ?_, ?_⟩
  · intro k
    by_cases hk : k ∈ l.map (fun t => cacheKey s t.1 t.2.1)
    · obtain ⟨t, ht, rfl⟩ := List.mem_map.1 hk
      obtain ⟨a, b, g, hla, hlb, _, _⟩ := hpair t ht
      rw [hla, hlb]
      rfl
    · obtain ⟨ha, _, _, _⟩ := exportTriples_effects target l s s1 h1
      obtain ⟨hb, _, _, _⟩ := exportTriples_effects target l2 s s2 h2
      rw [ha k hk, hb k (fun hc => hk ((hkmem k).1 hc))]
  · intro o
    rw [exportTriples_registeredOpts target l s s1 h1 hnd o,
      exportTriples_registeredOpts target l2 s s2 h2 hnd2 o]
    constructor
    · rintro (ho | ⟨t, ht, hr⟩)
      · exact Or.inl ho
      · exact Or.inr ⟨t, (hmem t).2 ht, hr⟩
    · rintro (ho | ⟨t, ht, hr⟩)
      · exact Or.inl ho
      · exact Or.inr ⟨t, (hmem t).1 ht, hr⟩
  · intro k g1 g2 hg1 hg2
    by_cases hk : k ∈ l.map (fun t => cacheKey s t.1 t.2.1)
    · obtain ⟨t, ht, rfl⟩ := List.mem_map.1 hk
      obtain ⟨a, b, g, hla, hlb, hga, hgb⟩ := hpair t ht
      rw [hla] at hg1
      rw [hlb] at hg2
      cases hg1
      cases hg2
      exact ⟨g, hga, hgb⟩
    · obtain ⟨hs1, hh1, hlt⟩ := run_gauge_other target l s s1 h1 hwf k hk g1 hg1
      obtain ⟨hs2, hh2, _⟩ := run_gauge_other target l2 s s2 h2 hwf k
        (fun hc => hk ((hkmem k).1 hc)) g2 hg2
      have e : g1 = g2 := Option.some.inj (hs1.symm.trans hs2)
      subst e
      refine ⟨s.heap[g1], ?_, ?_⟩
      · rw [hh1]; exact List.getElem?_eq_getElem hlt
      · rw [hh2]; exact List.getElem?_eq_getElem hlt
  · intro i hi
    obtain ⟨_, _, hmono1⟩ := exportTriples_mono target l s s1 h1
    obtain ⟨_, _, hmono2⟩ := exportTriples_mono target l2 s s2 h2
    have hold : ∀ t ∈ l, s.gauges.lookup (cacheKey s t.1 t.2.1) = some i →
        s1.heap[i]? = s2.heap[i]? := by
      intro t ht hlt
      obtain ⟨a, b, g, hla, hlb, hga, hgb⟩ := hpair t ht
      have ea : a = i := Option.some.inj (hla.symm.trans (hmono1 _ _ hlt))
      have eb : b = i := Option.some.inj (hlb.symm.trans (hmono2 _ _ hlt))
      rw [← ea, hga, ea, ← eb, hgb]
    by_cases hin1 : i ∈ touched s1 l
    · obtain ⟨t, ht, hlt⟩ := run_touched_old target l s s1 h1 i hi hin1
      exact hold t ht hlt
    · by_cases hin2 : i ∈ touched s2 l2
      · obtain ⟨t, ht, hlt⟩ := run_touched_old target l2 s s2 h2 i hi hin2
        exact hold t ((hmem t).1 ht) hlt
      · rw [exportTriples_frame target l s s1 h1 i hin1,
          exportTriples_frame target l2 s s2 h2 i hin2]

theorem registryTarget_accepts (validDesc : GaugeOpts → Bool) (s : State) (o : GaugeOpts) :
    registryTarget validDesc (registeredOpts s) o = true ↔
      validDesc o = true ∧ o ∉ registeredOpts s := by
  simp [registryTarget]

theorem Admissible_perm (validDesc : GaugeOpts → Bool) (s : State)
    (l l2 : List (GoString × GoString × Value)) (hperm : l2.Perm l) :
    Admissible validDesc s l2 ↔ Admissible validDesc s l := by
  unfold Admissible
  have hnd := List.Perm.nodup_iff (List.Perm.map (fun t : GoString × GoString × Value =>
    newGaugeOpts s t.1 t.2.1) (List.Perm.filter
      (fun t => (s.gauges.lookup (cacheKey s t.1 t.2.1)).isNone) hperm))
  rw [hnd]
  constructor
  · rintro ⟨h1, h2⟩
    exact ⟨fun t ht => h1 t ((List.Perm.mem_iff hperm).2 ht), h2⟩
  · rintro ⟨h1, h2⟩
    exact ⟨fun t ht => h1 t ((List.Perm.mem_iff hperm).1 ht), h2⟩

/-- Admissibility of the remaining triples after one returning iteration, in
terms of the state before it. -/
theorem Admissible_step (validDesc : GaugeOpts → Bool) (target : Registerer) (s s0 : State)
    (t : GoString × GoString × Value) (rest : List (GoString × GoString × Value))
    (h : exportTriple target s t = .ok s0)
    (hne : ∀ t1 ∈ rest, cacheKey s t1.1 t1.2.1 ≠ cacheKey s t.1 t.2.1) :
    Admissible validDesc s0 rest ↔
      (Admissible validDesc s rest ∧
        ∀ t1 ∈ rest, s.gauges.lookup (cacheKey s t1.1 t1.2.1) = none →
          ¬ (s.gauges.lookup (cacheKey s t.1 t.2.1) = none ∧
            newGaugeOpts s t1.1 t1.2.1 = newGaugeOpts s t.1 t.2.1)) := by
  obtain ⟨hn, hs, _, _⟩ := exportTriple_ok target s s0 t h
  obtain ⟨ha, _, _, _, _, hf⟩ := exportTriple_effects target s s0 t h
  have hlook : ∀ t1 ∈ rest, s0.gauges.lookup (cacheKey s0 t1.1 t1.2.1) =
      s.gauges.lookup (cacheKey s t1.1 t1.2.1) := by
    intro t1 ht1
    rw [cacheKey_congr s s0 hn hs, ha _ (hne t1 ht1)]
  have hopts : (fun t1 : GoString × GoString × Value => newGaugeOpts s0 t1.1 t1.2.1) =
      (fun t1 => newGaugeOpts s t1.1 t1.2.1) := by
    funext t1; exact newGaugeOpts_congr s s0 hn hs _ _
  have hfilter : rest.filter (fun t1 => (s0.gauges.lookup (cacheKey s0 t1.1 t1.2.1)).isNone) =
      rest.filter (fun t1 => (s.gauges.lookup (cacheKey s t1.1 t1.2.1)).isNone) := by
    apply List.filter_congr
    intro t1 ht1
    rw [hlook t1 ht1]
  unfold Admissible
  rw [hfilter, hopts]
  constructor
  · rintro ⟨h1, h2⟩
    refine ⟨⟨?_, h2⟩, ?_⟩
    · intro t1 ht1 hmiss
      have := h1 t1 ht1 (by rw [hlook t1 ht1]; exact hmiss)
      rw [newGaugeOpts_congr s s0 hn hs] at this
      refine ⟨this.1, fun hc => this.2 ((hf _).2 (Or.inl hc))⟩
    · intro t1 ht1 hmiss hc
      have := h1 t1 ht1 (by rw [hlook t1 ht1]; exact hmiss)
      rw [newGaugeOpts_congr s s0 hn hs] at this
      exact this.2 ((hf _).2 (Or.inr hc))
  · rintro ⟨⟨h1, h2⟩, h3⟩
    refine ⟨?_, h2⟩
    intro t1 ht1 hmiss
    rw [hlook t1 ht1] at hmiss
    rw [newGaugeOpts_congr s s0 hn hs]
    refine ⟨(h1 t1 ht1 hmiss).1, fun hc => ?_⟩
    rcases (hf _).1 hc with hc | hc
    · exact (h1 t1 ht1 hmiss).2 hc
    · exact h3 t1 ht1 hmiss hc

/-- With a `registryTarget`, a run over triples with pairwise distinct cache
keys returns exactly when the triples are admissible. -/
theorem exportTriples_returns_iff (validDesc : GaugeOpts → Bool)
    (l : List (GoString × GoString × Value)) (s : State)
    (hnd : (l.map (fun t => cacheKey s t.1 t.2.1)).Nodup) :
    (∃ s1, exportTriples (registryTarget validDesc) s l = .ok s1) ↔
      Admissible validDesc s l := by
  induction l generalizing s with
  | nil =>
    constructor
    · intro _
      exact ⟨fun t ht => absurd ht (List.not_mem_nil t), List.nodup_nil⟩
    · intro _
      exact ⟨s, rfl⟩
  | cons t rest ih =>
    rw [List.map_cons, List.nodup_cons] at hnd
    have hne : ∀ t1 ∈ rest, cacheKey s t1.1 t1.2.1 ≠ cacheKey s t.1 t.2.1 := by
      intro t1 hmem e
      apply hnd.1
      rw [← e]
      exact List.mem_map.2 ⟨t1, hmem, rfl⟩
    have hrestnd : ∀ s0, exportTriple (registryTarget validDesc) s t = .ok s0 →
        (rest.map (fun t => cacheKey s0 t.1 t.2.1)).Nodup := by
      intro s0 h0
      obtain ⟨hn, hs, _, _⟩ := exportTriple_ok _ s s0 t h0
      have hfun : (fun t : GoString × GoString × Value => cacheKey s0 t.1 t.2.1) =
          (fun t => cacheKey s t.1 t.2.1) := by
        funext t1; exact cacheKey_congr s s0 hn hs _ _
      rw [hfun]; exact hnd.2
    have hsplit : Admissible validDesc s (t :: rest) ↔
        ((s.gauges.lookup (cacheKey s t.1 t.2.1) = none →
          validDesc (newGaugeOpts s t.1 t.2.1) = true ∧
            newGaugeOpts s t.1 t.2.1 ∉ registeredOpts s) ∧
         Admissible validDesc s rest ∧
         ∀ t1 ∈ rest, s.gauges.lookup (cacheKey s t1.1 t1.2.1) = none →
          ¬ (s.gauges.lookup (cacheKey s t.1 t.2.1) = none ∧
            newGaugeOpts s t1.1 t1.2.1 = newGaugeOpts s t.1 t.2.1)) := by
      unfold Admissible
      rw [List.forall_mem_cons, List.filter_cons]
      cases hl : s.gauges.lookup (cacheKey s t.1 t.2.1) with
      | some h0 =>
        simp only [hl, Option.isNone_some, Bool.false_eq_true, if_false]
        constructor
        · rintro ⟨⟨_, h2⟩, h3⟩
          exact ⟨fun hc => Option.noConfusion hc, ⟨h2, h3⟩,
            fun t1 _ _ hc => Option.noConfusion hc.1⟩
        · rintro ⟨_, ⟨h2, h3⟩, _⟩
          exact ⟨⟨fun hc => Option.noConfusion hc, h2⟩, h3⟩
      | none =>
        rw [if_pos (show (none : Option Handle).isNone = true from rfl), List.map_cons,
          List.nodup_cons]
        constructor
        · rintro ⟨⟨h1, h2⟩, h3, h4⟩
          refine ⟨h1, ⟨h2, h4⟩, ?_⟩
          intro t1 ht1 hm hc
          apply h3
          refine List.mem_map.2 ⟨t1, List.mem_filter.2 ⟨ht1, ?_⟩, hc.2⟩
          simp only [hm]
          rfl
        · rintro ⟨h1, ⟨h2, h4⟩, h3⟩
          refine ⟨⟨h1, h2⟩, ?_, h4⟩
          intro hmem
          obtain ⟨t1, ht1, he⟩ := List.mem_map.1 hmem
          obtain ⟨ht1m, hnone⟩ := List.mem_filter.1 ht1
          have hm : s.gauges.lookup (cacheKey s t1.1 t1.2.1) = none :=
            Option.isNone_iff_eq_none.1 hnone
          exact h3 t1 ht1m hm ⟨rfl, he⟩
    rw [hsplit]
    rcases exportTriple_endState_cases (registryTarget validDesc) s t with
      ⟨h0, hl, hr⟩ | ⟨hl, hacc, hr⟩ | ⟨hl, hrej, hr⟩
    · have hiff := Admissible_step validDesc _ s _ t rest hr hne
      constructor
      · rintro ⟨s1, hrun⟩
        rw [exportTriples, hr] at hrun
        have hadm := (ih _ (hrestnd _ hr)).1 ⟨s1, hrun⟩
        obtain ⟨h1, h2⟩ := hiff.1 hadm
        exact ⟨fun hc => absurd (hl.symm.trans hc) (by simp), h1, h2⟩
      · rintro ⟨_, h1, h2⟩
        obtain ⟨s1, hrun⟩ := (ih _ (hrestnd _ hr)).2 (hiff.2 ⟨h1, h2⟩)
        exact ⟨s1, by rw [exportTriples, hr]; exact hrun⟩
    · have hiff := Admissible_step validDesc _ s _ t rest hr hne
      constructor
      · rintro ⟨s1, hrun⟩
        rw [exportTriples, hr] at hrun
        have hadm := (ih _ (hrestnd _ hr)).1 ⟨s1, hrun⟩
        obtain ⟨h1, h2⟩ := hiff.1 hadm
        exact ⟨fun _ => (registryTarget_accepts validDesc s _).1 hacc, h1, h2⟩
      · rintro ⟨_, h1, h2⟩
        obtain ⟨s1, hrun⟩ := (ih _ (hrestnd _ hr)).2 (hiff.2 ⟨h1, h2⟩)
        exact ⟨s1, by rw [exportTriples, hr]; exact hrun⟩
    · constructor
      · rintro ⟨s1, hrun⟩
        rw [exportTriples, hr] at hrun
        cases hrun
      · rintro ⟨h1, _, _⟩
        have := (registryTarget_accepts validDesc s _).2 (h1 hl)
        rw [hrej] at this
        cases this

theorem WellFormed_step (target : Registerer) (s : State) (t : GoString × GoString × Value)
    (hwf : WellFormed s) : WellFormed (endState (exportTriple target s t)) := by
  rcases exportTriple_endState_cases target s t with ⟨h, _, hr⟩ | ⟨_, _, hr⟩ | ⟨_, _, hr⟩
  · have h1 := exportTriple_wf target s _ t hr hwf
    rw [hr]
    exact h1
  · have h1 := exportTriple_wf target s _ t hr hwf
    rw [hr]
    exact h1
  · rw [hr]
    refine ⟨hwf.1, ?_⟩
    intro p hp
    simp only [endState, List.length_append, List.length_singleton]
    exact Nat.lt_succ_of_lt (hwf.2 p hp)

/-- Every state an exporter made by `NewExporter` reaches is well-formed. -/
theorem Reachable_wellFormed (target : Registerer) (namespace_ subsystem : GoString)
    (heap : List Gauge) (registered : List Handle) (s : State)
    (hreach : Reachable target (NewExporter namespace_ subsystem heap registered) s) :
    WellFormed s := by
  induction hreach with
  | start => exact ⟨List.nodup_nil, fun p hp => absurd hp (List.not_mem_nil p)⟩
  | call s1 snap _ ih =>
    rw [ExportOnce_eq_exportTriples]
    exact exportTriples_endState_induct target WellFormed
      (fun s2 t h2 => WellFormed_step target s2 t h2) _ s1 ih

/-- C20 (counterexample): a fresh exporter whose target already holds a gauge
named "x_count", and the snapshot with the pairs ("x", "count") and
("y", "count"), of distinct cache keys. Visiting "x" first, `ExportOnce` panics
at once and leaves an empty cache; visiting "y" first, it registers the gauge
"y_count" and caches it before it panics. -/
theorem ExportOnce_order_matters_on_panic :
    WellFormed (NewExporter (utf8 "ns") (utf8 "subsys")
      [⟨⟨utf8 "ns", utf8 "subsys", utf8 "x_count"⟩, Float64.zero⟩] [0]) ∧
    (triples [(utf8 "y", [(utf8 "count", Value.int64 2)]),
              (utf8 "x", [(utf8 "count", Value.int64 1)])]).Perm
      (triples [(utf8 "x", [(utf8 "count", Value.int64 1)]),
                (utf8 "y", [(utf8 "count", Value.int64 2)])]) ∧
    ((triples [(utf8 "x", [(utf8 "count", Value.int64 1)]),
               (utf8 "y", [(utf8 "count", Value.int64 2)])]).map
      (fun t => cacheKey (NewExporter (utf8 "ns") (utf8 "subsys")
        [⟨⟨utf8 "ns", utf8 "subsys", utf8 "x_count"⟩, Float64.zero⟩] [0]) t.1 t.2.1)).Nodup ∧
    ExportOnce freshNames
        (NewExporter (utf8 "ns") (utf8 "subsys")
          [⟨⟨utf8 "ns", utf8 "subsys", utf8 "x_count"⟩, Float64.zero⟩] [0])
        [(utf8 "x", [(utf8 "count", Value.int64 1)]),
         (utf8 "y", [(utf8 "count", Value.int64 2)])] =
      .panicked
        { namespace_ := utf8 "ns"
          subsystem := utf8 "subsys"
          gauges := []
          heap := [⟨⟨utf8 "ns", utf8 "subsys", utf8 "x_count"⟩, Float64.zero⟩,
                   ⟨⟨utf8 "ns", utf8 "subsys", utf8 "x_count"⟩, Float64.zero⟩]
          registered := [0] } ∧
    ExportOnce freshNames
        (NewExporter (utf8 "ns") (utf8 "subsys")
          [⟨⟨utf8 "ns", utf8 "subsys", utf8 "x_count"⟩, Float64.zero⟩] [0])
        [(utf8 "y", [(utf8 "count", Value.int64 2)]),
         (utf8 "x", [(utf8 "count", Value.int64 1)])] =
      .panicked
        { namespace_ := utf8 "ns"
          subsystem := utf8 "subsys"
          gauges := [(utf8 "ns_subsys_y_count_count", 1)]
          heap := [⟨⟨utf8 "ns", utf8 "subsys", utf8 "x_count"⟩, Float64.zero⟩,
                   ⟨⟨utf8 "ns", utf8 "subsys", utf8 "y_count"⟩, AsFloat64 (Value.int64 2)⟩,
                   ⟨⟨utf8 "ns", utf8 "subsys", utf8 "x_count"⟩, Float64.zero⟩]
          registered := [0, 1] } := by
  refine ⟨?_, List.Perm.swap _ _ _, by decide, by decide, by decide⟩
  exact ⟨List.nodup_nil, fun p hp => absurd hp (List.not_mem_nil p)⟩

/-- C20 (as amended): from a well-formed state, for two orderings of the same
snapshot triples with pairwise distinct cache keys: when `ExportOnce` returns
in both orders, the two results have the same keys in the cache, the same set
of registered gauge options, under every cache key a gauge of the same options
and value, and every gauge that existed before in the same state; and with a
target that rejects exactly the invalid and the already registered
descriptors, `ExportOnce` returns in one order exactly when it returns in the
other. -/
theorem ExportOnce_order_independent (target : Registerer) (s : State)
    (snap snap2 : Snapshot) (hwf : WellFormed s)
    (hsame : (triples snap2).Perm (triples snap))
    (hkeys : ((triples snap).map (fun t => cacheKey s t.1 t.2.1)).Nodup) :
    (∀ s1 s2, ExportOnce target s snap = .ok s1 → ExportOnce target s snap2 = .ok s2 →
      (∀ k, (s1.gauges.lookup k).isSome = (s2.gauges.lookup k).isSome) ∧
      (∀ o, o ∈ registeredOpts s1 ↔ o ∈ registeredOpts s2) ∧
      (∀ k g1 g2, s1.gauges.lookup k = some g1 → s2.gauges.lookup k = some g2 →
        ∃ g, s1.heap[g1]? = some g ∧ s2.heap[g2]? = some g) ∧
      (∀ i : Nat, i < s.heap.length → s1.heap[i]? = s2.heap[i]?)) ∧
    (∀ validDesc : GaugeOpts → Bool,
      (∃ s1, ExportOnce (registryTarget validDesc) s snap = .ok s1) ↔
        (∃ s2, ExportOnce (registryTarget validDesc) s snap2 = .ok s2)) := by
  refine ⟨?_, ?_⟩
  · intro s1 s2 h1 h2
    rw [ExportOnce_eq_exportTriples] at h1 h2
    exact exportTriples_order target _ _ s s1 s2 hwf hsame hkeys h1 h2
  · intro validDesc
    have hkeys2 : ((triples snap2).map (fun t => cacheKey s t.1 t.2.1)).Nodup :=
      (List.Perm.nodup_iff (List.Perm.map _ hsame)).2 hkeys
    rw [ExportOnce_eq_exportTriples, ExportOnce_eq_exportTriples,
      exportTriples_returns_iff validDesc _ s hkeys,
      exportTriples_returns_iff validDesc _ s hkeys2]
    exact (Admissible_perm validDesc s _ _ hsame).symm

/-- C20 (witness): the meter snapshot on a fresh exporter, "count" first and
"1m.rate" first; both orders return, with the gauges created in opposite
order. -/
theorem ExportOnce_order_independent_witness :
    WellFormed (NewExporter (utf8 "ns") (utf8 "subsys") [] []) ∧
    (triples meterSwapped).Perm (triples meterSnapshot) ∧
    ((triples meterSnapshot).map (fun t =>
      cacheKey (NewExporter (utf8 "ns") (utf8 "subsys") [] []) t.1 t.2.1)).Nodup ∧
    ((∀ s1 s2,
      ExportOnce freshNames (NewExporter (utf8 "ns") (utf8 "subsys") [] []) meterSnapshot =
        .ok s1 →
      ExportOnce freshNames (NewExporter (utf8 "ns") (utf8 "subsys") [] []) meterSwapped =
        .ok s2 →
      (∀ k, (s1.gauges.lookup k).isSome = (s2.gauges.lookup k).isSome) ∧
      (∀ o, o ∈ registeredOpts s1 ↔ o ∈ registeredOpts s2) ∧
      (∀ k g1 g2, s1.gauges.lookup k = some g1 → s2.gauges.lookup k = some g2 →
        ∃ g, s1.heap[g1]? = some g ∧ s2.heap[g2]? = some g) ∧
      (∀ i : Nat, i < (NewExporter (utf8 "ns") (utf8 "subsys") [] []).heap.length →
        s1.heap[i]? = s2.heap[i]?)) ∧
    (∀ validDesc : GaugeOpts → Bool,
      (∃ s1, ExportOnce (registryTarget validDesc)
        (NewExporter (utf8 "ns") (utf8 "subsys") [] []) meterSnapshot = .ok s1) ↔
        (∃ s2, ExportOnce (registryTarget validDesc)
          (NewExporter (utf8 "ns") (utf8 "subsys") [] []) meterSwapped = .ok s2))) ∧
    ExportOnce freshNames (NewExporter (utf8 "ns") (utf8 "subsys") [] []) meterSnapshot =
      .ok meterExported ∧
    ExportOnce freshNames (NewExporter (utf8 "ns") (utf8 "subsys") [] []) meterSwapped =
      .ok meterExportedSwapped :=
  ⟨⟨List.nodup_nil, fun p hp => absurd hp (List.not_mem_nil p)⟩,
    List.Perm.swap _ _ _, by decide,
    ExportOnce_order_independent freshNames (NewExporter (utf8 "ns") (utf8 "subsys") [] [])
      meterSnapshot meterSwapped
      ⟨List.nodup_nil, fun p hp => absurd hp (List.not_mem_nil p)⟩
      (List.Perm.swap _ _ _) (by decide),
    by decide, by decide⟩

end Promex
